import Mathlib

/-!
# sliderloop: a shallow embedding of `src/sliderloop.c`

The Pd external `sliderloop` records time-stamped float values and replays them in a loop.

Modelling conventions.

* `double` and `t_float` are idealised as exact rationals (`ℚ`); casts between them are the
  identity and arithmetic is exact.
* C `int` fields are `Int`; the three places where the source does `int` arithmetic
  (`event_capacity * 2`, `event_count++`, `play_index++`) go through `wrap32`, the
  two's-complement wrap-around of a 32-bit `int`.
* The block `events` points to is a list whose length is the number of allocated cells
  (`NULL` is the empty list).  An access outside the block is undefined behaviour and makes the
  operation return `none`.
* `get_current_time`, the success of `realloc`/`fopen` and the file content are inputs of the
  operation that consults them, one argument per call site.
* The Pd clock `x_clock` is the delay of the pending one-shot timer (`none`: unset); the outlet
  `x_out` is the list of values emitted so far, oldest first.
-/

namespace Sliderloop

/-! ## Data model (source lines 8-29) -/

/-- One recorded sample, `struct _event`. -/
structure t_event where
  time : ℚ
  value : ℚ
deriving DecidableEq, Repr

instance : Inhabited t_event := ⟨⟨0, 0⟩⟩

/-- The object, `struct _sliderloop`. -/
structure t_sliderloop where
  x_out : List ℚ
  x_clock : Option ℚ
  recording : Bool
  record_start : ℚ
  events : List t_event
  event_count : Int
  event_capacity : Int
  playing : Bool
  play_start : ℚ
  play_index : Int
deriving DecidableEq, Repr

/-- Two's-complement wrap-around of a 32-bit C `int`. -/
def wrap32 (n : Int) : Int := (n + 2147483648) % 4294967296 - 2147483648

/-- Read of `events[i]`: `none` when `i` is outside the allocated block. -/
def load_event (p : List t_event) (i : Int) : Option t_event :=
  if 0 ≤ i then p[i.toNat]? else none

/-- Write of `events[i]`: `none` when `i` is outside the allocated block. -/
def store_event (p : List t_event) (i : Int) (e : t_event) : Option (List t_event) :=
  if 0 ≤ i ∧ i.toNat < p.length then some (p.set i.toNat e) else none

/-- Library `realloc(p, n * sizeof(t_event))`: on success the block has `n` cells, the old cells
that fit are kept in place and fresh cells are zero; a negative `n` converts to a `size_t` larger
than any block and fails; `ok = false` is an allocation failure. -/
def realloc (ok : Bool) (p : List t_event) (n : Int) : Option (List t_event) :=
  if ok ∧ 0 ≤ n then some (p.take n.toNat ++ List.replicate (n.toNat - p.length) default)
  else none

/-! ## Operations (source lines 38-115, 184-197) -/

/-- Lines 49-54 of `add_event`: stamp the sample and store it at `events[event_count]`. -/
def add_event_store (x : t_sliderloop) (value current_time : ℚ) : Option t_sliderloop :=
  let timestamp := current_time - x.record_start
  match store_event x.events x.event_count ⟨timestamp, value⟩ with
  | none => none
  | some new_events =>
    some { x with events := new_events, event_count := wrap32 (x.event_count + 1) }

/-- Add a new event to the buffer (`add_event`, lines 39-55). -/
def add_event (x : t_sliderloop) (value current_time : ℚ) (alloc_ok : Bool) :
    Option t_sliderloop :=
  if x.event_count ≥ x.event_capacity then
    let new_capacity := wrap32 (x.event_capacity * 2)
    let new_capacity := if new_capacity < 16 then 16 else new_capacity
    match realloc alloc_ok x.events new_capacity with
    | none => some x
    | some new_events =>
      add_event_store { x with events := new_events, event_capacity := new_capacity }
        value current_time
  else add_event_store x value current_time

/-- Schedule next playback event (`schedule_next`, lines 58-67). -/
def schedule_next (x : t_sliderloop) (current_time : ℚ) : Option t_sliderloop :=
  if !x.playing || decide (x.play_index ≥ x.event_count) then some x
  else
    match load_event x.events x.play_index with
    | none => none
    | some e =>
      let next_time := x.play_start + e.time
      let delay := next_time - current_time
      let delay := if delay < 0 then 0 else delay
      some { x with x_clock := some delay }

/-- Clock callback for playback (`playback_tick`, lines 70-83).  `t_loop` is the clock reading
of line 80, `t_sched` the one taken inside `schedule_next`. -/
def playback_tick (x : t_sliderloop) (t_loop t_sched : ℚ) : Option t_sliderloop :=
  if !x.playing || decide (x.play_index ≥ x.event_count) then some x
  else
    match load_event x.events x.play_index with
    | none => none
    | some e =>
      let x1 := { x with x_out := x.x_out ++ [e.value], play_index := wrap32 (x.play_index + 1) }
      let x2 :=
        if x1.play_index ≥ x1.event_count then { x1 with play_index := 0, play_start := t_loop }
        else x1
      schedule_next x2 t_sched

/-- Float input handler (`sliderloop_float`, lines 86-90). -/
def sliderloop_float (x : t_sliderloop) (f current_time : ℚ) (alloc_ok : Bool) :
    Option t_sliderloop :=
  if x.recording then add_event x f current_time alloc_ok else some x

/-- Start recording (`start_recording`, lines 93-97). -/
def start_recording (x : t_sliderloop) (current_time : ℚ) : t_sliderloop :=
  { x with recording := true, record_start := current_time, event_count := 0 }

/-- Stop recording/playback (`stop`, lines 100-104). -/
def stop (x : t_sliderloop) : t_sliderloop :=
  { x with recording := false, playing := false, x_clock := none }

/-- Start playback (`start_playback`, lines 107-115).  `t_start` is the clock reading of
line 113, `t_sched` the one taken inside `schedule_next`. -/
def start_playback (x : t_sliderloop) (t_start t_sched : ℚ) : Option t_sliderloop :=
  if x.event_count = 0 then some x
  else
    let x1 := stop x
    schedule_next { x1 with playing := true, play_index := 0, play_start := t_start } t_sched

/-- Constructor (`sliderloop_new`, lines 185-197).  The fields the constructor does not assign
(`record_start`, `play_start`, `play_index`) are the zero bytes `pd_new` hands out. -/
def sliderloop_new : t_sliderloop :=
  { x_out := [], x_clock := none, recording := false, record_start := 0, events := [],
    event_count := 0, event_capacity := 0, playing := false, play_start := 0, play_index := 0 }

/-- The Pd scheduler firing the object's clock: a pending timer is consumed and the callback
`playback_tick` runs; with no timer pending nothing fires. -/
def clock_fire (x : t_sliderloop) (t_loop t_sched : ℚ) : Option t_sliderloop :=
  match x.x_clock with
  | none => some x
  | some _ => playback_tick { x with x_clock := none } t_loop t_sched

/-! ## Text files: the C library calls used by `save_to_file` and `load_from_file`

A file is the list of its characters.  The library routines are modelled on what the source
asks of them: `fprintf` with `%.6f`, `fgets`, `strstr` and `fscanf` with `%lf`. -/

/-- A line on the Pd console: `pd_error` or `post`. -/
inductive t_post where
  | pd_error (msg : String)
  | post (msg : String)
deriving DecidableEq, Repr

/-- The character of a decimal digit. -/
def digit_char (d : Nat) : Char := Char.ofNat (48 + d)

/-- Decimal digits of a natural number, most significant first, at least one digit. -/
def fmt_nat (n : Nat) : List Char :=
  if n = 0 then ['0'] else (Nat.digits 10 n).reverse.map digit_char

/-- Nearest natural number to a non-negative rational, ties to even (the default rounding of
`printf`). -/
def round_half_even (q : ℚ) : Nat :=
  let f := Nat.floor q
  let r := q - f
  if r < 1 / 2 then f else if 1 / 2 < r then f + 1 else if f % 2 = 0 then f else f + 1

/-- Conversion `%.6f`: optional minus sign, integer digits, a point and exactly six decimals. -/
def fmt_f6 (q : ℚ) : List Char :=
  let n := round_half_even (|q| * 1000000)
  (if q < 0 then ['-'] else []) ++ fmt_nat (n / 1000000) ++
    '.' :: List.map (fun k => digit_char (n / 10 ^ k % 10)) [5, 4, 3, 2, 1, 0]

/-- One call `fprintf(f, "%.6f %.6f\n", e.time, e.value)`. -/
def fprintf_event (e : t_event) : List Char :=
  fmt_f6 e.time ++ ' ' :: (fmt_f6 e.value ++ ['\n'])

/-- C `isspace` in the C locale. -/
def c_isspace (c : Char) : Bool :=
  c = ' ' || c = '\t' || c = '\n' || c = '\x0b' || c = '\x0c' || c = '\r'

/-- C `isdigit`. -/
def c_isdigit (c : Char) : Bool := decide (48 ≤ c.toNat) && decide (c.toNat ≤ 57)

/-- A whitespace directive of `scanf`: skips any amount of white space, also none. -/
def skip_space (s : List Char) : List Char := s.dropWhile c_isspace

/-- Reads the longest run of decimal digits: `(value, number of digits, rest)`, starting from the
accumulated value `acc` and count `k`. -/
def scan_digits : List Char → Nat → Nat → Nat × Nat × List Char
  | [], acc, k => (acc, k, [])
  | c :: cs, acc, k =>
    if c_isdigit c then scan_digits cs (acc * 10 + (c.toNat - 48)) (k + 1) else (acc, k, c :: cs)

/-- An optional sign: `(negative, rest)`. -/
def scan_sign : List Char → Bool × List Char
  | c :: cs => if c = '-' then (true, cs) else if c = '+' then (false, cs) else (false, c :: cs)
  | [] => (false, [])

/-- Conversion `%lf` of `scanf` on decimal input: leading white space, optional sign, digits with
an optional point, optional exponent.  `none` is a matching failure.  (`inf`, `nan` and
hexadecimal input have no rational value and count as a matching failure.) -/
def scan_double (s : List Char) : Option (ℚ × List Char) :=
  let sg := scan_sign (skip_space s)
  let ip := scan_digits sg.2 0 0
  let fp : Nat × Nat × List Char :=
    match ip.2.2 with
    | [] => (0, 0, [])
    | c :: cs => if c = '.' then scan_digits cs 0 0 else (0, 0, c :: cs)
  if ip.2.1 + fp.2.1 = 0 then none
  else
    let m : ℚ := (ip.1 : ℚ) + (fp.1 : ℚ) / 10 ^ fp.2.1
    let sgn : ℚ := if sg.1 then -1 else 1
    match fp.2.2 with
    | [] => some (sgn * m, [])
    | c :: cs =>
      if c = 'e' ∨ c = 'E' then
        let es := scan_sign cs
        let ev := scan_digits es.2 0 0
        if ev.2.1 = 0 then none
        else some (sgn * m * (if es.1 then 1 / 10 ^ ev.1 else 10 ^ ev.1), ev.2.2)
      else some (sgn * m, c :: cs)

/-- One call `fscanf(f, "%lf %lf\n", &time, &value)`: `some (time, value, rest)` when it returns
2, `none` otherwise. -/
def fscanf_event (f : List Char) : Option (ℚ × ℚ × List Char) :=
  match scan_double f with
  | none => none
  | some (time, f1) =>
    match scan_double (skip_space f1) with
    | none => none
    | some (value, f2) => some (time, value, skip_space f2)

/-- Library `fgets(buf, n + 1, f)`: reads at most `n` characters, stopping after a newline:
`(characters read, rest of the stream)`. -/
def fgets : Nat → List Char → List Char × List Char
  | 0, f => ([], f)
  | _ + 1, [] => ([], [])
  | n + 1, c :: cs =>
    if c = '\n' then ([c], cs) else ((fgets n cs).1.cons c, (fgets n cs).2)

/-- The C string held by a buffer: its characters up to the first NUL. -/
def c_str (buf : List Char) : List Char := buf.takeWhile (fun c => c ≠ '\x00')

/-- Library `strstr(haystack, needle)`: offset of the first occurrence, `none` for `NULL`. -/
def strstr : List Char → List Char → Option Nat
  | [], needle => if needle = [] then some 0 else none
  | c :: cs, needle =>
    if needle.isPrefixOf (c :: cs) then some 0 else (strstr cs needle).map (fun i => i + 1)

/-! ## Persistence (source lines 117-177) -/

/-- The `for` loop of `save_to_file` (lines 128-130): `n` iterations left, at index `i`
(`i < event_count` keeps `i + 1` within `int`, so `i++` does not wrap). -/
def save_loop (x : t_sliderloop) : Nat → Int → Option (List Char)
  | 0, _ => some []
  | n + 1, i =>
    match load_event x.events i with
    | none => none
    | some e =>
      (save_loop x n (i + 1)).map fun r => fprintf_event e ++ r

/-- Save (`save_to_file`, lines 117-134): `(the file written, console output)`; the object is
not modified. -/
def save_to_file (x : t_sliderloop) (filename : String) (fopen_ok : Bool) :
    Option (Option (List Char) × List t_post) :=
  if !fopen_ok then some (none, [t_post.pd_error ("Couldn't write to file: " ++ filename)])
  else
    match save_loop x x.event_count.toNat 0 with
    | none => none
    | some body =>
      some (some ("sliderloop_data_v1.0\n".toList ++ body),
        [t_post.post ("Saved " ++ toString x.event_count ++ " automation points to " ++ filename)])

/-- Lines 170-172 of `load_from_file`: store the pair at `events[event_count]`. -/
def load_store (x : t_sliderloop) (time value : ℚ) : Option t_sliderloop :=
  match store_event x.events x.event_count ⟨time, value⟩ with
  | none => none
  | some new_events =>
    some { x with events := new_events, event_count := wrap32 (x.event_count + 1) }

/-- Lines 157-172 of `load_from_file`, the body of the loop: grow the block if it is full, then
store the pair.  `some none` is the early return on a failed `realloc` (the object is left as it
is); `none` is undefined behaviour. -/
def load_append (alloc_ok : Int → Bool) (x : t_sliderloop) (time value : ℚ) :
    Option (Option t_sliderloop) :=
  if x.event_count ≥ x.event_capacity then
    let new_capacity := if x.event_capacity ≠ 0 then wrap32 (x.event_capacity * 2) else 64
    match realloc (alloc_ok new_capacity) x.events new_capacity with
    | none => some none
    | some new_events =>
      (load_store { x with events := new_events, event_capacity := new_capacity }
        time value).map some
  else (load_store x time value).map some

/-- The `while` loop of `load_from_file` and what follows it (lines 156-176).  Every iteration
consumes input, so `fuel` above the length of the input is never used up; running out of it is
reported as `none`. -/
def load_loop (filename : String) (alloc_ok : Int → Bool) :
    Nat → t_sliderloop → List Char → Option (t_sliderloop × List t_post)
  | 0, _, _ => none
  | fuel + 1, x, f =>
    match fscanf_event f with
    | none =>
      some (x, [t_post.post
        ("Loaded " ++ toString x.event_count ++ " automation points from " ++ filename)])
    | some (time, value, rest) =>
      match load_append alloc_ok x time value with
      | none => none
      | some none => some (x, [t_post.pd_error "Memory error loading file"])
      | some (some x1) => load_loop filename alloc_ok fuel x1 rest

/-- Load (`load_from_file`, lines 136-177).  `file` is the content `fopen` gives access to,
`none` when the open fails; `alloc_ok n` tells whether the `realloc` to `n` cells succeeds. -/
def load_from_file (x : t_sliderloop) (filename : String) (file : Option (List Char))
    (alloc_ok : Int → Bool) : Option (t_sliderloop × List t_post) :=
  match file with
  | none => some (x, [t_post.pd_error ("Couldn't read file: " ++ filename)])
  | some f =>
    let x0 := { x with event_count := 0 }
    let header := fgets 31 f
    if header.1 = [] ∨ strstr (c_str header.1) "sliderloop_data".toList ≠ some 0 then
      some (x0, [t_post.pd_error "Invalid file format"])
    else load_loop filename alloc_ok (header.2.length + 1) x0 header.2

/-! ## The object as a machine driven by the host (source lines 200-215) -/

/-- What the host can deliver to the object: the five messages registered by
`sliderloop_setup`, a float on the inlet, and the firing of the clock. -/
inductive t_input where
  | record (now : ℚ)
  | stop
  | play (t_start t_sched : ℚ)
  | save (filename : String) (fopen_ok : Bool)
  | load (filename : String) (file : Option (List Char)) (alloc_ok : Int → Bool)
  | float (f now : ℚ) (alloc_ok : Bool)
  | tick (t_loop t_sched : ℚ)

/-- One input handled by the object; `none` is undefined behaviour. -/
def step (x : t_sliderloop) : t_input → Option t_sliderloop
  | .record now => some (start_recording x now)
  | .stop => some (stop x)
  | .play t_start t_sched => start_playback x t_start t_sched
  | .save filename fopen_ok => (save_to_file x filename fopen_ok).map fun _ => x
  | .load filename file alloc_ok => (load_from_file x filename file alloc_ok).map Prod.fst
  | .float f now alloc_ok => sliderloop_float x f now alloc_ok
  | .tick t_loop t_sched => clock_fire x t_loop t_sched

/-- A sequence of inputs handled in order, from state `x`. -/
def run (x : t_sliderloop) : List t_input → Option t_sliderloop
  | [] => some x
  | i :: is =>
    match step x i with
    | none => none
    | some x1 => run x1 is

/-- The states the object can be in: reached from the constructor by some inputs. -/
def Reachable (x : t_sliderloop) : Prop := ∃ is, run sliderloop_new is = some x

/-- A well-formed object: the count is within the capacity, the capacity is the number of
allocated cells, and it is an `int`. -/
def wf (x : t_sliderloop) : Prop :=
  0 ≤ x.event_count ∧ x.event_count ≤ x.event_capacity ∧
    x.event_capacity = x.events.length ∧ x.event_capacity ≤ 2147483647

instance (x : t_sliderloop) : Decidable (wf x) := by unfold wf; infer_instance

/-- The logical content of the buffer: the first `event_count` cells of the block. -/
def buffer (x : t_sliderloop) : List t_event := x.events.take x.event_count.toNat

/-- The data lines `save_to_file` writes for a list of events. -/
def fprintf_events : List t_event → List Char
  | [] => []
  | e :: es => fprintf_event e ++ fprintf_events es

/-- What `%.6f` followed by `%lf` makes of a number: the nearest multiple of `1e-6`. -/
def round6 (q : ℚ) : ℚ :=
  (if q < 0 then -1 else 1) * ((round_half_even (|q| * 1000000) : ℚ) / 1000000)

/-- The first line of a file, without its newline. -/
def first_line (f : List Char) : List Char := f.takeWhile (fun c => c ≠ '\n')

/-- A recording object holding the buffer `[(0, 1), (100, 2)]` in a block of 16 cells. -/
def two_events : t_sliderloop :=
  { sliderloop_new with
    events := [⟨0, 1⟩, ⟨100, 2⟩] ++ List.replicate 14 default
    event_count := 2
    event_capacity := 16
    recording := true }

/-- The clock readings an input hands to the code, in the order of the calls. -/
def clock_readings : List t_input → List ℚ
  | [] => []
  | .record now :: is => now :: clock_readings is
  | .play t_start t_sched :: is => t_start :: t_sched :: clock_readings is
  | .float _ now _ :: is => now :: clock_readings is
  | .tick t_loop t_sched :: is => t_loop :: t_sched :: clock_readings is
  | _ :: is => clock_readings is

/-- A `load` that can be trusted with the time order: one that does not open its file, or one
handled while `recording` is false whose stored pairs are in time order.  Other inputs are not
constrained. -/
def tame_load (x : t_sliderloop) : t_input → Prop
  | .load filename (some f) alloc_ok =>
    x.recording = false ∧
      ∀ r, load_from_file x filename (some f) alloc_ok = some r →
        (buffer r.1).Pairwise (fun a b => a.time ≤ b.time)
  | _ => True

/-- A run all of whose `load` inputs are tame. -/
def tame_run : t_sliderloop → List t_input → Prop
  | _, [] => True
  | x, i :: is => tame_load x i ∧ ∀ x1, step x i = some x1 → tame_run x1 is

/-- The inputs that reset `event_count`: `record` and `load`. -/
def resets_buffer : t_input → Bool
  | .record _ => true
  | .load _ _ _ => true
  | _ => false

/-- A run in which no `record` and no `load` arrives while `playing` is true. -/
def quiet_run : t_sliderloop → List t_input → Prop
  | _, [] => True
  | x, i :: is =>
    (x.playing = true → resets_buffer i = false) ∧ ∀ x1, step x i = some x1 → quiet_run x1 is

/-- The float inputs `(value, clock reading)` of a recording, every allocation succeeding. -/
def float_inputs (ps : List (ℚ × ℚ)) : List t_input :=
  ps.map fun p => t_input.float p.1 p.2 true

/-- The capacities the doubling policy of `add_event` goes through: 16 times a power of two. -/
def doubling_caps : Set Int := { c | ∃ j : Nat, c = 16 * 2 ^ j }

/-- A timer that is not early under a clock that does not go backward: each firing in `ts`
reads the clock (first reading `t.1`) no earlier than the reading `armed_at` taken when the
pending timer was armed plus its delay, and the second reading `t.2` is not before the first.
`x` is the object before the firings. -/
def timely : t_sliderloop → ℚ → List (ℚ × ℚ) → Prop
  | _, _, [] => True
  | x, armed_at, t :: ts =>
    (∀ d, x.x_clock = some d → armed_at + d ≤ t.1) ∧ t.1 ≤ t.2 ∧
      ∀ x1, clock_fire x t.1 t.2 = some x1 → timely x1 t.2 ts

/-- The object `two_events` while it plays its last event: cursor 1, loop started at 50, timer
pending. -/
def playing_last : t_sliderloop :=
  { two_events with
    recording := false
    playing := true
    play_start := 50
    play_index := 1
    x_clock := some 100 }

/-- A recording of `2^30` float inputs (value 0 at clock reading 0). -/
def many_floats : List (ℚ × ℚ) := List.replicate 1073741824 (0, 0)

/-- The buffer is in time order and, while recording, no stored time is after the clock
reading `lo`. -/
def ordered_upto (x : t_sliderloop) (lo : ℚ) : Prop :=
  (buffer x).Pairwise (fun a b => a.time ≤ b.time) ∧
    (x.recording = true → ∀ e ∈ buffer x, e.time + x.record_start ≤ lo)

/-- The playback cursor is inside the buffer whenever `playing` is true. -/
def cursor_ok (x : t_sliderloop) : Prop :=
  x.playing = true → 0 ≤ x.play_index ∧ x.play_index < x.event_count

/-- The object `s` is playing the `n` events of the block `ev` and its timer was armed by
`schedule_next` at clock reading `armed_at` for the event under the cursor. -/
def armed_for (ev : List t_event) (n : Int) (s : t_sliderloop) (armed_at : ℚ) : Prop :=
  s.playing = true ∧ s.events = ev ∧ s.event_count = n ∧ 0 ≤ s.play_index ∧ s.play_index < n ∧
    ∃ e, load_event ev s.play_index = some e ∧
      s.x_clock = some (max 0 (s.play_start + e.time - armed_at))

/-! ## Theorems -/

/-! ### Record, stop and play taken one at a time -/

theorem start_playback_eq (x : t_sliderloop) (t_start t_sched : ℚ)
    (hpos : 0 < x.event_count) (hblock : x.event_count ≤ x.events.length) :
    ∃ e, (buffer x)[0]? = some e ∧
      start_playback x t_start t_sched = some
        { x_out := x.x_out, x_clock := some (max 0 (t_start + e.time - t_sched)),
          recording := false, record_start := x.record_start, events := x.events,
          event_count := x.event_count, event_capacity := x.event_capacity,
          playing := true, play_start := t_start, play_index := 0 } := by
  have hlen : 0 < x.events.length := by omega
  obtain ⟨e, l, hl⟩ : ∃ e l, x.events = e :: l := by
    cases hx : x.events with
    | nil => simp [hx] at hlen
    | cons e l => exact ⟨e, l, rfl⟩
  have hn : 0 < x.event_count.toNat := by omega
  refine ⟨e, ?_, ?_⟩
  · obtain ⟨k, hk⟩ : ∃ k, x.event_count.toNat = k + 1 := ⟨x.event_count.toNat - 1, by omega⟩
    simp [buffer, hl, hk]
  · have hne : x.event_count ≠ 0 := by omega
    have hnot : ¬ x.event_count ≤ 0 := by omega
    simp only [start_playback, hne, if_false, schedule_next, stop, load_event, hl]
    simp [hnot]
    rw [max_comm, max_def]
    split_ifs with h1 h2 h2 <;> linarith


/-- C1, evaluated on the code: the inputs `record`, a float, `play`, `record` lead from the
constructor's state to a state in which `recording` and `playing` are both true, because
`start_recording` does not call `stop` the way `start_playback` does. -/
theorem record_after_play_sets_both_flags :
    ∃ x, run sliderloop_new
        [.record 0, .float 1 5 true, .play 10 10, .record 20] = some x ∧
      Reachable x ∧ x.recording = true ∧ x.playing = true := by
  have h : ∃ x, run sliderloop_new
      [.record 0, .float 1 5 true, .play 10 10, .record 20] = some x ∧
      x.recording = true ∧ x.playing = true := by
    simp [run, step, start_recording, sliderloop_float, add_event, add_event_store, store_event,
      realloc, wrap32, start_playback, stop, schedule_next, load_event, sliderloop_new]
  obtain ⟨x, hx, hr, hp⟩ := h
  exact ⟨x, hx, ⟨_, hx⟩, hr, hp⟩

/-- C2, evaluated on the code: in the playing state reached by `record`, a float, `play`, the
`record` command empties the buffer but leaves `playing` true and the timer pending (delay 5);
a float 9 recorded next is then emitted by the tick of the interrupted playback. -/
theorem record_while_playing_keeps_playback :
    ∃ x, run sliderloop_new [.record 0, .float 1 5 true, .play 10 10] = some x ∧
      x.playing = true ∧ x.x_clock = some 5 ∧
      (start_recording x 20).playing = true ∧
      (start_recording x 20).x_clock = some 5 ∧
      (start_recording x 20).event_count = 0 ∧
      (run (start_recording x 20) [.float 9 21 true, .tick 30 30]).map
        (fun s => s.x_out) = some [9] := by
  simp [run, step, start_recording, sliderloop_float, add_event, add_event_store, store_event,
    realloc, wrap32, start_playback, stop, schedule_next, load_event, sliderloop_new,
    clock_fire, playback_tick]

/-- C6: `play` on an object whose `event_count` is 0 returns the object as it was: no field
changes (flags, cursor, buffer, pending timer) and nothing is added to the outlet. -/
theorem start_playback_empty (x : t_sliderloop) (t_start t_sched : ℚ)
    (h : x.event_count = 0) : start_playback x t_start t_sched = some x := by
  simp [start_playback, h]

theorem start_playback_empty_witness :
    sliderloop_new.event_count = 0 ∧ start_playback sliderloop_new 3 4 = some sliderloop_new :=
  ⟨rfl, start_playback_empty sliderloop_new 3 4 rfl⟩

/-- C7: `play` on an object with `event_count > 0` whose count is within the allocated block
yields the same object with `recording` false, `playing` true, `play_index` 0, `play_start` the
clock reading taken by play, and one timer pending, armed for the first event with the delay
clamped at 0; block, count, capacity and outlet are as before. -/
theorem start_playback_nonempty (x : t_sliderloop) (t_start t_sched : ℚ)
    (hpos : 0 < x.event_count) (hblock : x.event_count ≤ x.events.length) :
    ∃ e, (buffer x)[0]? = some e ∧
      start_playback x t_start t_sched = some
        { x_out := x.x_out, x_clock := some (max 0 (t_start + e.time - t_sched)),
          recording := false, record_start := x.record_start, events := x.events,
          event_count := x.event_count, event_capacity := x.event_capacity,
          playing := true, play_start := t_start, play_index := 0 } :=
  start_playback_eq x t_start t_sched hpos hblock

theorem start_playback_nonempty_witness :
    ∃ e, (buffer two_events)[0]? = some e ∧
      start_playback two_events 7 8 = some
        { x_out := two_events.x_out, x_clock := some (max 0 (7 + e.time - 8)),
          recording := false, record_start := two_events.record_start,
          events := two_events.events, event_count := two_events.event_count,
          event_capacity := two_events.event_capacity,
          playing := true, play_start := 7, play_index := 0 } :=
  start_playback_nonempty two_events 7 8 (by decide) (by decide)

/-- C8: `stop` clears `recording` and `playing` and unsets the timer, leaving block, count,
capacity, cursor and outlet as they were; a second `stop` changes nothing more; after `stop`
the clock callback, a firing of the clock and a float input all return the object unchanged,
so nothing is emitted. -/
theorem stop_spec (x : t_sliderloop) :
    ((stop x).recording = false ∧ (stop x).playing = false ∧ (stop x).x_clock = none) ∧
    ((stop x).events = x.events ∧ (stop x).event_count = x.event_count ∧
      (stop x).event_capacity = x.event_capacity ∧ (stop x).play_index = x.play_index ∧
      (stop x).play_start = x.play_start ∧ (stop x).record_start = x.record_start ∧
      (stop x).x_out = x.x_out) ∧
    stop (stop x) = stop x ∧
    (∀ t_loop t_sched, playback_tick (stop x) t_loop t_sched = some (stop x)) ∧
    (∀ t_loop t_sched, clock_fire (stop x) t_loop t_sched = some (stop x)) ∧
    (∀ f now alloc_ok, sliderloop_float (stop x) f now alloc_ok = some (stop x)) := by
  refine ⟨⟨rfl, rfl, rfl⟩, ⟨rfl, rfl, rfl, rfl, rfl, rfl, rfl⟩, rfl, ?_, ?_, ?_⟩
  · intro t_loop t_sched
    simp [playback_tick, stop]
  · intro t_loop t_sched
    simp [clock_fire, stop]
  · intro f now alloc_ok
    simp [sliderloop_float, stop]

/-- C10: `record` sets `recording`, sets `record_start` to the clock reading it takes and sets
`event_count` to 0, so the buffer is empty before any sample arrives; `event_capacity` and the
allocated block are kept. -/
theorem start_recording_spec (x : t_sliderloop) (now : ℚ) :
    (start_recording x now).recording = true ∧
    (start_recording x now).record_start = now ∧
    (start_recording x now).event_count = 0 ∧
    buffer (start_recording x now) = [] ∧
    (start_recording x now).event_capacity = x.event_capacity ∧
    (start_recording x now).events = x.events := by
  simp [start_recording, buffer]


theorem wrap32_of_int (n : Int) (h0 : -2147483648 ≤ n) (h1 : n ≤ 2147483647) : wrap32 n = n := by
  unfold wrap32
  omega

theorem take_succ_set (e : t_event) : ∀ (l : List t_event) (k : Nat), k < l.length →
    (l.set k e).take (k + 1) = l.take k ++ [e]
  | [], k, h => by simp at h
  | a :: l, 0, _ => by simp
  | a :: l, k + 1, h => by
    have := take_succ_set e l k (by simpa using h)
    simp [this]

theorem load_event_of_lt (p : List t_event) (i : Nat) (h : i < p.length) :
    load_event p (i : Int) = some p[i] := by
  simp [load_event, List.getElem?_eq_getElem h]

theorem schedule_next_playing (y : t_sliderloop) (t : ℚ) (i : Nat) (hp : y.playing = true)
    (hi : y.play_index = i) (hlt : (i : Int) < y.event_count) (hil : i < y.events.length) :
    ∃ s', schedule_next y t = some s' ∧ s'.x_clock.isSome = true ∧ s'.x_out = y.x_out ∧
      s'.playing = true ∧ s'.play_index = i ∧ s'.event_count = y.event_count ∧
      s'.events = y.events := by
  have hnot : ¬ (y.event_count ≤ (i : Int)) := not_le.mpr hlt
  simp [schedule_next, hp, hi, hnot, load_event_of_lt _ _ hil]

theorem playback_tick_emit (y : t_sliderloop) (a b : ℚ) (e : t_event) (hp : y.playing = true)
    (hlt : y.play_index < y.event_count) (he : load_event y.events y.play_index = some e) :
    playback_tick y a b = schedule_next
      (if y.event_count ≤ wrap32 (y.play_index + 1) then
        { y with x_out := y.x_out ++ [e.value], play_index := 0, play_start := a }
      else { y with x_out := y.x_out ++ [e.value], play_index := wrap32 (y.play_index + 1) }) b := by
  have hnot : ¬ (y.event_count ≤ y.play_index) := not_le.mpr hlt
  simp only [playback_tick, hp, he, ge_iff_le, hnot]
  simp

theorem playback_tick_playing (y : t_sliderloop) (a b : ℚ) (i n : Nat)
    (hp : y.playing = true) (hi : y.play_index = i)
    (hn : y.event_count = n) (hin : i < n) (hblock : n ≤ y.events.length)
    (hmax : (n : Int) ≤ 2147483647) :
    ∃ e, y.events[i]? = some e ∧ ∃ s', playback_tick y a b = some s' ∧
      s'.x_out = y.x_out ++ [e.value] ∧ s'.playing = true ∧ s'.x_clock.isSome = true ∧
      s'.play_index = ((i + 1) % n : Nat) ∧ s'.event_count = n ∧ s'.events = y.events := by
  have hil : i < y.events.length := by omega
  have hw : wrap32 (y.play_index + 1) = (i : Int) + 1 := by
    rw [hi]; exact wrap32_of_int _ (by omega) (by omega)
  refine ⟨y.events[i], List.getElem?_eq_getElem hil, ?_⟩
  rw [playback_tick_emit y a b y.events[i] hp (by rw [hi, hn]; omega)
    (by rw [hi]; exact load_event_of_lt _ _ hil), hw, hn]
  by_cases hlast : i + 1 = n
  · have hmod : (i + 1) % n = 0 := by rw [hlast]; exact Nat.mod_self n
    rw [if_pos (by omega), hmod]
    obtain ⟨s', hs, hc, ho, hp', hi', hn', he'⟩ := schedule_next_playing
      { y with x_out := y.x_out ++ [y.events[i].value], play_index := 0, play_start := a } b 0
      hp rfl (by simp only [hn]; omega) (by simp only; omega)
    exact ⟨s', by rw [← hn]; exact hs, ho, hp', hc, hi', hn'.trans hn, he'⟩
  · have hmod : (i + 1) % n = i + 1 := Nat.mod_eq_of_lt (by omega)
    rw [if_neg (by omega), hmod]
    obtain ⟨s', hs, hc, ho, hp', hi', hn', he'⟩ := schedule_next_playing
      { y with x_out := y.x_out ++ [y.events[i].value], play_index := (i : Int) + 1 } b (i + 1)
      hp (by simp) (by simp only [hn]; omega) (by simp only; omega)
    exact ⟨s', by rw [← hn]; exact hs, ho, hp', hc, hi', hn'.trans hn, he'⟩

theorem clock_fire_playing (s : t_sliderloop) (a b : ℚ) (i n : Nat)
    (hp : s.playing = true) (hc : s.x_clock.isSome = true) (hi : s.play_index = i)
    (hn : s.event_count = n) (hin : i < n) (hblock : n ≤ s.events.length)
    (hmax : (n : Int) ≤ 2147483647) :
    ∃ e, s.events[i]? = some e ∧ ∃ s', clock_fire s a b = some s' ∧
      s'.x_out = s.x_out ++ [e.value] ∧ s'.playing = true ∧ s'.x_clock.isSome = true ∧
      s'.play_index = ((i + 1) % n : Nat) ∧ s'.event_count = n ∧ s'.events = s.events := by
  obtain ⟨d, hd⟩ := Option.isSome_iff_exists.mp hc
  have hfire : clock_fire s a b = playback_tick { s with x_clock := none } a b := by
    simp [clock_fire, hd]
  rw [hfire]
  exact playback_tick_playing { s with x_clock := none } a b i n hp hi hn hin hblock hmax

theorem run_ticks (ev : List t_event) (n : Nat) (hblock : n ≤ ev.length)
    (hmax : (n : Int) ≤ 2147483647) (ts : List (ℚ × ℚ)) :
    ∀ (s : t_sliderloop) (i : Nat), i < n → s.playing = true → s.x_clock.isSome = true →
      s.events = ev → s.event_count = n → s.play_index = i →
      ∃ s' vals, run s (ts.map fun p => t_input.tick p.1 p.2) = some s' ∧
        s'.x_out = s.x_out ++ vals ∧ vals.length = ts.length ∧
        ∀ j, j < ts.length → ∃ e, ev[(i + j) % n]? = some e ∧ vals[j]? = some e.value := by
  induction ts with
  | nil =>
    intro s i _ _ _ _ _ _
    exact ⟨s, [], rfl, by simp, rfl, by simp⟩
  | cons t ts ih =>
    intro s i hin hp hc hev hn hi
    obtain ⟨e, he, s1, hs1, hout, hp1, hc1, hi1, hn1, hev1⟩ :=
      clock_fire_playing s t.1 t.2 i n hp hc hi hn hin (hev ▸ hblock) hmax
    obtain ⟨s', vals, hrun, hout', hlen, hvals⟩ :=
      ih s1 ((i + 1) % n) (Nat.mod_lt _ (by omega)) hp1 hc1 (hev1.trans hev) hn1 hi1
    refine ⟨s', e.value :: vals, ?_, ?_, by simp [hlen], ?_⟩
    · simp [run, step, hs1, hrun]
    · simp [hout', hout]
    · intro j hj
      cases j with
      | zero =>
        refine ⟨e, ?_, by simp⟩
        rw [Nat.add_zero, Nat.mod_eq_of_lt hin, ← hev]
        exact he
      | succ j =>
        obtain ⟨e', he', hv'⟩ := hvals j (by simpa using hj)
        refine ⟨e', ?_, by simpa using hv'⟩
        rw [Nat.mod_add_mod] at he'
        rw [← he']
        congr 2
        omega


theorem buffer_getElem? (x : t_sliderloop) (k : Nat) (h : k < x.event_count.toNat) :
    (buffer x)[k]? = x.events[k]? := by
  simp [buffer, List.getElem?_take, h]

/-- C3: on a well-formed object with a non-empty buffer of `n` events, `play` followed by `k`
firings of the clock (whatever the clock readings) runs without fault and appends exactly `k`
values to the outlet, the `j`-th being the value of event `j mod n`. -/
theorem looped_playback_order (x : t_sliderloop) (t_start t_sched : ℚ) (ts : List (ℚ × ℚ))
    (hwf : wf x) (hpos : 0 < x.event_count) :
    ∃ s vals, run x (.play t_start t_sched :: ts.map fun p => t_input.tick p.1 p.2) = some s ∧
      s.x_out = x.x_out ++ vals ∧ vals.length = ts.length ∧
      ∀ j, j < ts.length →
        ∃ e, (buffer x)[j % x.event_count.toNat]? = some e ∧ vals[j]? = some e.value := by
  obtain ⟨h0, hcap, hlen, hmax⟩ := hwf
  have hblock : x.event_count ≤ x.events.length := by omega
  obtain ⟨e0, -, hplay⟩ := start_playback_eq x t_start t_sched hpos hblock
  have hn : x.event_count = (x.event_count.toNat : Int) := by omega
  generalize hsp : ({ x_out := x.x_out, x_clock := some (max 0 (t_start + e0.time - t_sched)),
                      recording := false, record_start := x.record_start, events := x.events,
                      event_count := x.event_count, event_capacity := x.event_capacity,
                      playing := true, play_start := t_start, play_index := 0 } :
                        t_sliderloop) = sp at hplay
  obtain ⟨s, vals, hrun, hout, hl, hvals⟩ :=
    run_ticks x.events x.event_count.toNat (by omega) (by omega) ts sp 0 (by omega)
      (by rw [← hsp]) (by rw [← hsp]; rfl) (by rw [← hsp]) (by rw [← hsp]; exact hn)
      (by rw [← hsp]; rfl)
  have hout0 : sp.x_out = x.x_out := by rw [← hsp]
  rw [hout0] at hout
  refine ⟨s, vals, ?_, hout, hl, ?_⟩
  · simp only [run, step, hplay]
    exact hrun
  · intro j hj
    obtain ⟨e, he, hv⟩ := hvals j hj
    refine ⟨e, ?_, hv⟩
    rw [buffer_getElem? x _ (Nat.mod_lt _ (by omega))]
    simpa using he

theorem looped_playback_order_witness :
    (∃ s vals, run two_events
        (.play 50 50 :: [(50, 50), (150, 150), (150, 151)].map fun p => t_input.tick p.1 p.2) =
          some s ∧
      s.x_out = two_events.x_out ++ vals ∧ vals.length = 3 ∧
      ∀ j, j < 3 →
        ∃ e, (buffer two_events)[j % two_events.event_count.toNat]? = some e ∧
          vals[j]? = some e.value) ∧
    (run two_events
        (.play 50 50 :: [(50, 50), (150, 150), (150, 151)].map fun p => t_input.tick p.1 p.2)).map
      (fun s => s.x_out) = some [1, 2, 1] :=
  ⟨looped_playback_order two_events 50 50 [(50, 50), (150, 150), (150, 151)]
    (by decide) (by decide),
   by simp [run, step, two_events, start_playback, stop, schedule_next, load_event,
      sliderloop_new, clock_fire, playback_tick, wrap32]⟩


/-! ### Recording -/

theorem add_event_store_ok (s : t_sliderloop) (v t : ℚ) (h0 : 0 ≤ s.event_count)
    (hlt : s.event_count < s.events.length) (hmax : s.event_count < 2147483647) :
    ∃ s', add_event_store s v t = some s' ∧ s'.event_count = s.event_count + 1 ∧
      buffer s' = buffer s ++ [⟨t - s.record_start, v⟩] ∧
      s'.events.length = s.events.length ∧ s'.event_capacity = s.event_capacity ∧
      s'.recording = s.recording ∧ s'.record_start = s.record_start ∧
      s'.playing = s.playing ∧ s'.play_index = s.play_index ∧ s'.play_start = s.play_start ∧
      s'.x_out = s.x_out ∧ s'.x_clock = s.x_clock := by
  have hk : s.event_count.toNat < s.events.length := by omega
  have hw : wrap32 (s.event_count + 1) = s.event_count + 1 := wrap32_of_int _ (by omega) (by omega)
  have ht : (s.event_count + 1).toNat = s.event_count.toNat + 1 := by omega
  simp [add_event_store, store_event, h0, hk, hw, buffer, ht, take_succ_set _ _ _ hk]

theorem add_event_ok (s : t_sliderloop) (v t : ℚ) (h0 : 0 ≤ s.event_count)
    (hle : s.event_count ≤ s.event_capacity) (hlen : s.event_capacity = s.events.length)
    (hsmall : s.event_count < 1073741824) :
    ∃ s', add_event s v t true = some s' ∧ s'.event_count = s.event_count + 1 ∧
      buffer s' = buffer s ++ [⟨t - s.record_start, v⟩] ∧
      s'.event_count ≤ s'.event_capacity ∧ s'.event_capacity = s'.events.length ∧
      s'.recording = s.recording ∧ s'.record_start = s.record_start ∧
      s'.playing = s.playing ∧ s'.play_index = s.play_index ∧ s'.play_start = s.play_start ∧
      s'.x_out = s.x_out ∧ s'.x_clock = s.x_clock := by
  by_cases hge : s.event_count ≥ s.event_capacity
  · have hcap : s.event_capacity = s.event_count := by omega
    have hw : wrap32 (s.event_capacity * 2) = s.event_capacity * 2 :=
      wrap32_of_int _ (by omega) (by omega)
    obtain ⟨nc, hnc, hnc16, hnc2⟩ : ∃ nc : Int,
        (if wrap32 (s.event_capacity * 2) < 16 then 16 else wrap32 (s.event_capacity * 2)) = nc ∧
        16 ≤ nc ∧ s.event_capacity * 2 ≤ nc := by
      refine ⟨_, rfl, ?_, ?_⟩ <;> rw [hw] <;> split_ifs <;> omega
    have hre : realloc true s.events nc =
        some (s.events ++ List.replicate (nc.toNat - s.events.length) default) := by
      have hnn : 0 ≤ nc := by omega
      have htk : s.events.take nc.toNat = s.events := List.take_of_length_le (by omega)
      simp [realloc, hnn, htk]
    obtain ⟨s', hs', hc', hb', hl', hcap', rest⟩ := add_event_store_ok
      { s with events := s.events ++ List.replicate (nc.toNat - s.events.length) default,
               event_capacity := nc } v t h0
      (by simp only [List.length_append, List.length_replicate]; omega) (by simp only; omega)
    refine ⟨s', ?_, hc', ?_, ?_, ?_, rest⟩
    · simp only [add_event, hge, if_true, hnc, hre]
      exact hs'
    · rw [hb']
      simp only [buffer]
      rw [List.take_append_of_le_length (by omega)]
    · rw [hc', hcap']
      simp only
      omega
    · rw [hcap', hl']
      simp only [List.length_append, List.length_replicate]
      omega
  · obtain ⟨s', hs', hc', hb', hl', hcap', rest⟩ :=
      add_event_store_ok s v t h0 (by omega) (by omega)
    refine ⟨s', ?_, hc', hb', by omega, by omega, rest⟩
    simp only [add_event, hge, if_false]
    exact hs'

theorem run_floats (t_r : ℚ) (inputs : List (ℚ × ℚ)) :
    ∀ s : t_sliderloop, s.recording = true → s.record_start = t_r → 0 ≤ s.event_count →
      s.event_count ≤ s.event_capacity → s.event_capacity = s.events.length →
      s.event_count + inputs.length ≤ 1073741824 →
      ∃ s', run s (inputs.map fun p => t_input.float p.1 p.2 true) = some s' ∧
        s'.event_count = s.event_count + inputs.length ∧
        buffer s' = buffer s ++ inputs.map (fun p => ⟨p.2 - t_r, p.1⟩) ∧
        s'.recording = true ∧ s'.playing = s.playing ∧ s'.x_out = s.x_out ∧
        s'.x_clock = s.x_clock := by
  induction inputs with
  | nil =>
    intro s hr _ _ _ _ _
    exact ⟨s, rfl, by simp, by simp, hr, rfl, rfl, rfl⟩
  | cons p ps ih =>
    intro s hr hrs h0 hle hlen hsmall
    simp only [List.length_cons, Nat.cast_add, Nat.cast_one] at hsmall
    obtain ⟨s1, hs1, hc1, hb1, hle1, hlen1, hr1, hrs1, hp1, -, -, ho1, hk1⟩ :=
      add_event_ok s p.1 p.2 h0 hle hlen (by omega)
    obtain ⟨s', hrun, hc', hb', hr', hp', ho', hk'⟩ :=
      ih s1 (hr1.trans hr) (hrs1.trans hrs) (by omega) hle1 hlen1 (by omega)
    refine ⟨s', ?_, ?_, ?_, hr', hp'.trans hp1, ho'.trans ho1, hk'.trans hk1⟩
    · simp only [List.map_cons, run, step, sliderloop_float, hr, if_true, hs1]
      exact hrun
    · rw [hc', hc1]
      simp only [List.length_cons, Nat.cast_add, Nat.cast_one]
      omega
    · rw [hb', hb1, hrs]
      simp

/-- C4, as the code has it: after `record` at clock reading `t_r` on a well-formed object,
`n ≤ 2^30` float inputs `v_i` at clock readings `t_i` with every allocation succeeding leave
exactly `n` events in the buffer, the `i`-th being `(t_i - t_r, v_i)`: times are relative to the
clock reading taken by `record`. -/
theorem recorder_law (x : t_sliderloop) (t_r : ℚ) (inputs : List (ℚ × ℚ)) (hwf : wf x)
    (hn : inputs.length ≤ 1073741824) :
    ∃ s, run x (.record t_r :: inputs.map fun p => t_input.float p.1 p.2 true) = some s ∧
      s.event_count = inputs.length ∧
      buffer s = inputs.map (fun p => ⟨p.2 - t_r, p.1⟩) := by
  obtain ⟨-, -, hlen, -⟩ := hwf
  obtain ⟨s, hrun, hc, hb, -⟩ := run_floats t_r inputs (start_recording x t_r) rfl rfl
    (le_refl _) (by simp only [start_recording]; omega) hlen
    (by simp only [start_recording]; omega)
  refine ⟨s, ?_, ?_, ?_⟩
  · simp only [run, step]
    exact hrun
  · rw [hc]; simp [start_recording]
  · rw [hb]; simp [start_recording, buffer]

theorem recorder_law_witness :
    ∃ s, run sliderloop_new
        (.record 10 :: [((1 : ℚ), (15 : ℚ)), (2, 15), (3, 40)].map
          fun p => t_input.float p.1 p.2 true) = some s ∧
      s.event_count = ([((1 : ℚ), (15 : ℚ)), (2, 15), (3, 40)]).length ∧
      buffer s = [((1 : ℚ), (15 : ℚ)), (2, 15), (3, 40)].map (fun p => ⟨p.2 - 10, p.1⟩) :=
  recorder_law sliderloop_new 10 [(1, 15), (2, 15), (3, 40)] (by decide) (by decide)

/-- C4 as stated fails: `record` at clock 0 and one float input 1 at clock 5 store the event
`(5, 1)`; the stated law asks for the time `t_0 - t_0 = 0`. -/
theorem recorder_law_first_input_time :
    ∃ s, run sliderloop_new [.record 0, .float 1 5 true] = some s ∧
      s.event_count = 1 ∧ buffer s = [⟨5, 1⟩] ∧
      buffer s ≠ [((1 : ℚ), (5 : ℚ))].map (fun p => ⟨p.2 - 5, p.1⟩) := by
  simp [run, step, start_recording, sliderloop_float, add_event, add_event_store, store_event,
    realloc, wrap32, sliderloop_new, buffer]


/-! ### Persistence -/

theorem fgets_append (n : Nat) (f : List Char) : (fgets n f).1 ++ (fgets n f).2 = f := by
  induction n generalizing f with
  | zero => simp [fgets]
  | succ n ih =>
    cases f with
    | nil => simp [fgets]
    | cons c cs =>
      by_cases hc : c = '\n'
      · simp [fgets, hc]
      · simp [fgets, hc, ih cs]

theorem strstr_zero (hay needle : List Char) (h : strstr hay needle = some 0) :
    needle <+: hay := by
  cases hay with
  | nil =>
    by_cases hn : needle = []
    · simp [hn]
    · simp [strstr, hn] at h
  | cons c cs =>
    by_cases hp : needle.isPrefixOf (c :: cs) = true
    · exact List.isPrefixOf_iff_prefix.mp hp
    · simp [strstr, hp] at h

theorem prefix_takeWhile (p : Char → Bool) :
    ∀ needle l : List Char, needle <+: l → (∀ c ∈ needle, p c = true) →
      needle <+: l.takeWhile p
  | [], _, _, _ => List.nil_prefix
  | a :: needle, [], h, _ => by simp at h
  | a :: needle, b :: l, h, hall => by
    rw [List.cons_prefix_cons] at h
    obtain ⟨hab, hrest⟩ := h
    subst hab
    have ha : p a = true := hall a (by simp)
    rw [List.takeWhile_cons_of_pos ha, List.cons_prefix_cons]
    exact ⟨rfl, prefix_takeWhile p needle l hrest (fun c hc => hall c (by simp [hc]))⟩

/-- C9: `load` on a file that opens but whose first line does not begin with
`sliderloop_data` (an empty file included) reports the error `Invalid file format` and returns
the object with `event_count` set to 0 and every other field (capacity, block, flags, cursor,
timer, outlet) as it was. -/
theorem load_bad_header (x : t_sliderloop) (filename : String) (f : List Char)
    (alloc_ok : Int → Bool) (hbad : ¬ ("sliderloop_data".toList <+: first_line f)) :
    load_from_file x filename (some f) alloc_ok =
      some ({ x with event_count := 0 }, [t_post.pd_error "Invalid file format"]) := by
  have hstr : strstr (c_str (fgets 31 f).1) "sliderloop_data".toList ≠ some 0 := by
    intro h
    apply hbad
    have h1 : "sliderloop_data".toList <+: c_str (fgets 31 f).1 := strstr_zero _ _ h
    have h2 : c_str (fgets 31 f).1 <+: (fgets 31 f).1 := List.takeWhile_prefix _
    have h3 : (fgets 31 f).1 <+: f := ⟨(fgets 31 f).2, fgets_append 31 f⟩
    exact prefix_takeWhile _ _ _ (h1.trans (h2.trans h3)) (by decide)
  simp only [load_from_file]
  rw [if_pos (Or.inr hstr)]

theorem load_bad_header_witness :
    ¬ ("sliderloop_data".toList <+: first_line "slider\nloop_data_v1.0\n1 2\n".toList) ∧
    load_from_file two_events "a.txt" (some "slider\nloop_data_v1.0\n1 2\n".toList)
        (fun _ => true) =
      some ({ two_events with event_count := 0 }, [t_post.pd_error "Invalid file format"]) :=
  ⟨by decide, load_bad_header two_events "a.txt" "slider\nloop_data_v1.0\n1 2\n".toList
    (fun _ => true) (by decide)⟩


theorem digit_char_facts (d : Nat) (h : d < 10) :
    c_isdigit (digit_char d) = true ∧ (digit_char d).toNat - 48 = d ∧
      c_isspace (digit_char d) = false ∧ digit_char d ≠ '-' ∧ digit_char d ≠ '+' ∧
      digit_char d ≠ '.' := by
  interval_cases d <;> decide

theorem scan_digits_map (rest : List Char)
    (hrest : ∀ c cs, rest = c :: cs → c_isdigit c = false) :
    ∀ (ds : List Nat), (∀ d ∈ ds, d < 10) → ∀ acc k : Nat,
      scan_digits (ds.map digit_char ++ rest) acc k =
        (ds.foldl (fun a d => a * 10 + d) acc, k + ds.length, rest)
  | [], _, acc, k => by
    cases rest with
    | nil => simp [scan_digits]
    | cons c cs => simp [scan_digits, hrest c cs rfl]
  | d :: ds, hall, acc, k => by
    obtain ⟨h1, h2, -⟩ := digit_char_facts d (hall d (by simp))
    have ih := scan_digits_map rest hrest ds (fun d' hd' => hall d' (by simp [hd']))
      (acc * 10 + d) (k + 1)
    have hk : k + 1 + ds.length = k + (ds.length + 1) := by omega
    simp only [List.map_cons, List.cons_append, scan_digits, h1, if_true, h2, List.append_eq]
    rw [ih, hk]
    simp only [List.foldl_cons, List.length_cons]

theorem foldl_reverse_ofDigits (L : List Nat) :
    L.reverse.foldl (fun a d => a * 10 + d) 0 = Nat.ofDigits 10 L := by
  induction L with
  | nil => simp
  | cons d L ih =>
    simp only [List.reverse_cons, List.foldl_append, List.foldl_cons, List.foldl_nil, ih,
      Nat.ofDigits_cons]
    omega

/-- The digits `fmt_nat` prints. -/
theorem fmt_nat_digits (n : Nat) :
    ∃ ds : List Nat, fmt_nat n = ds.map digit_char ∧ ds ≠ [] ∧ (∀ d ∈ ds, d < 10) ∧
      ds.foldl (fun a d => a * 10 + d) 0 = n := by
  by_cases hn : n = 0
  · exact ⟨[0], by simp [fmt_nat, hn]; rfl, by simp, by simp, by simp [hn]⟩
  · refine ⟨(Nat.digits 10 n).reverse, by simp [fmt_nat, hn], ?_, ?_, ?_⟩
    · simp [Nat.digits_eq_nil_iff_eq_zero, hn]
    · intro d hd
      exact Nat.digits_lt_base (by norm_num) (List.mem_reverse.mp hd)
    · rw [foldl_reverse_ofDigits, Nat.ofDigits_digits]

theorem six_digits (n : Nat) :
    ∃ ds : List Nat, List.map (fun k => digit_char (n / 10 ^ k % 10)) [5, 4, 3, 2, 1, 0] =
        ds.map digit_char ∧ ds.length = 6 ∧ (∀ d ∈ ds, d < 10) ∧
      ds.foldl (fun a d => a * 10 + d) 0 = n % 1000000 := by
  refine ⟨[n / 100000 % 10, n / 10000 % 10, n / 1000 % 10, n / 100 % 10, n / 10 % 10, n % 10],
    by simp, rfl, ?_, ?_⟩
  · intro d hd
    simp only [List.mem_cons, List.mem_singleton, List.not_mem_nil, or_false] at hd
    omega
  · simp only [List.foldl_cons, List.foldl_nil]
    omega


theorem scan_double_decimal (neg : Bool) (ids fds : List Nat) (hid : ids ≠ [])
    (hi : ∀ d ∈ ids, d < 10) (hf : ∀ d ∈ fds, d < 10) (c : Char) (rest : List Char)
    (hc : c = ' ' ∨ c = '\n') :
    scan_double ((if neg then ['-'] else []) ++
        (ids.map digit_char ++ '.' :: (fds.map digit_char ++ c :: rest))) =
      some ((if neg then -1 else 1) *
          (((ids.foldl (fun a d => a * 10 + d) 0 : Nat) : ℚ) +
            ((fds.foldl (fun a d => a * 10 + d) 0 : Nat) : ℚ) / 10 ^ fds.length),
        c :: rest) := by
  obtain ⟨d0, ids', rfl⟩ : ∃ d0 ids', ids = d0 :: ids' := by
    cases ids with
    | nil => exact absurd rfl hid
    | cons d0 ids' => exact ⟨d0, ids', rfl⟩
  obtain ⟨-, -, hsp, hminus, hplus, -⟩ := digit_char_facts d0 (hi d0 (by simp))
  have hcd : c_isdigit c = false := by rcases hc with rfl | rfl <;> decide
  have hce : ¬ (c = 'e' ∨ c = 'E') := by rcases hc with rfl | rfl <;> decide
  have hskip : skip_space ((if neg then ['-'] else []) ++
      ((d0 :: ids').map digit_char ++ '.' :: (fds.map digit_char ++ c :: rest))) =
      (if neg then ['-'] else []) ++
      ((d0 :: ids').map digit_char ++ '.' :: (fds.map digit_char ++ c :: rest)) := by
    cases neg
    · simp [skip_space, List.dropWhile, hsp]
    · simp [skip_space, List.dropWhile, c_isspace]
  have hsign : scan_sign ((if neg then ['-'] else []) ++
      ((d0 :: ids').map digit_char ++ '.' :: (fds.map digit_char ++ c :: rest))) =
      (neg, (d0 :: ids').map digit_char ++ '.' :: (fds.map digit_char ++ c :: rest)) := by
    cases neg
    · simp [scan_sign, hminus, hplus]
    · simp [scan_sign]
  have hint := scan_digits_map ('.' :: (fds.map digit_char ++ c :: rest))
    (by intro c' cs h; cases h; decide) (d0 :: ids') hi 0 0
  have hfrac := scan_digits_map (c :: rest)
    (by intro c' cs h; cases h; exact hcd) fds hf 0 0
  simp only [scan_double, hskip, hsign, hint, hfrac, if_true]
  have hlen : ¬ (0 + (d0 :: ids').length + (0 + fds.length) = 0) := by
    simp only [List.length_cons]; omega
  simp only [hlen, if_false, hce, Nat.zero_add]
  cases neg <;> simp


theorem fmt_f6_shape (q : ℚ) :
    ∃ (neg : Bool) (ids fds : List Nat),
      fmt_f6 q = (if neg then ['-'] else []) ++ (ids.map digit_char ++ '.' :: fds.map digit_char) ∧
      ids ≠ [] ∧ (∀ d ∈ ids, d < 10) ∧ (∀ d ∈ fds, d < 10) ∧
      round6 q = (if neg then -1 else 1) *
        (((ids.foldl (fun a d => a * 10 + d) 0 : Nat) : ℚ) +
          ((fds.foldl (fun a d => a * 10 + d) 0 : Nat) : ℚ) / 10 ^ fds.length) := by
  obtain ⟨ids, hids, hne, hi, hival⟩ := fmt_nat_digits (round_half_even (|q| * 1000000) / 1000000)
  obtain ⟨fds, hfds, hflen, hf, hfval⟩ := six_digits (round_half_even (|q| * 1000000))
  refine ⟨decide (q < 0), ids, fds, ?_, hne, hi, hf, ?_⟩
  · simp only [fmt_f6, hids, hfds, decide_eq_true_eq, List.append_assoc]
  · rw [hival, hfval, hflen]
    have hdm := Nat.div_add_mod (round_half_even (|q| * 1000000)) 1000000
    have hq : ((round_half_even (|q| * 1000000) : Nat) : ℚ) =
        1000000 * ((round_half_even (|q| * 1000000) / 1000000 : Nat) : ℚ) +
          ((round_half_even (|q| * 1000000) % 1000000 : Nat) : ℚ) := by
      exact_mod_cast hdm.symm
    simp only [round6, decide_eq_true_eq]
    rw [hq]
    congr 1
    field_simp
    ring

theorem scan_double_fmt (q : ℚ) (c : Char) (rest : List Char) (hc : c = ' ' ∨ c = '\n') :
    scan_double (fmt_f6 q ++ c :: rest) = some (round6 q, c :: rest) := by
  obtain ⟨neg, ids, fds, hfmt, hne, hi, hf, hval⟩ := fmt_f6_shape q
  have h := scan_double_decimal neg ids fds hne hi hf c rest hc
  rw [hfmt, hval]
  simpa only [List.append_assoc, List.cons_append] using h

theorem skip_space_fmt (q : ℚ) (rest : List Char) :
    skip_space (fmt_f6 q ++ rest) = fmt_f6 q ++ rest := by
  obtain ⟨neg, ids, fds, hfmt, hne, hi, -, -⟩ := fmt_f6_shape q
  obtain ⟨d0, ids', rfl⟩ : ∃ d0 ids', ids = d0 :: ids' := by
    cases ids with
    | nil => exact absurd rfl hne
    | cons d0 ids' => exact ⟨d0, ids', rfl⟩
  obtain ⟨-, -, hsp, -⟩ := digit_char_facts d0 (hi d0 (by simp))
  rw [hfmt]
  cases neg
  · simp [skip_space, List.dropWhile, hsp]
  · simp [skip_space, List.dropWhile, c_isspace]

theorem skip_space_fprintf_events (es : List t_event) :
    skip_space (fprintf_events es) = fprintf_events es := by
  cases es with
  | nil => rfl
  | cons e es =>
    simp only [fprintf_events, fprintf_event, List.append_assoc]
    exact skip_space_fmt _ _

theorem scan_double_skip_space (s : List Char) : scan_double (skip_space s) = scan_double s := by
  have h : skip_space (skip_space s) = skip_space s := by
    induction s with
    | nil => rfl
    | cons c cs ih =>
      by_cases hc : c_isspace c = true
      · simpa [skip_space, List.dropWhile, hc] using ih
      · simp [skip_space, List.dropWhile, hc]
  simp only [scan_double, h]

theorem fscanf_event_fprintf (e : t_event) (es : List t_event) :
    fscanf_event (fprintf_event e ++ fprintf_events es) =
      some (round6 e.time, round6 e.value, fprintf_events es) := by
  have h1 : scan_double (fprintf_event e ++ fprintf_events es) =
      some (round6 e.time, ' ' :: (fmt_f6 e.value ++ '\n' :: fprintf_events es)) := by
    have := scan_double_fmt e.time ' ' (fmt_f6 e.value ++ '\n' :: fprintf_events es) (Or.inl rfl)
    simpa only [fprintf_event, List.append_assoc, List.cons_append, List.nil_append] using this
  have h2 : scan_double (skip_space (' ' :: (fmt_f6 e.value ++ '\n' :: fprintf_events es))) =
      some (round6 e.value, '\n' :: fprintf_events es) := by
    rw [scan_double_skip_space]
    have hsk : skip_space (' ' :: (fmt_f6 e.value ++ '\n' :: fprintf_events es)) =
        skip_space (fmt_f6 e.value ++ '\n' :: fprintf_events es) := by
      simp [skip_space, List.dropWhile, c_isspace]
    have h3 : scan_double (' ' :: (fmt_f6 e.value ++ '\n' :: fprintf_events es)) =
        scan_double (fmt_f6 e.value ++ '\n' :: fprintf_events es) := by
      rw [← scan_double_skip_space, hsk, scan_double_skip_space]
    rw [h3]
    exact scan_double_fmt e.value '\n' (fprintf_events es) (Or.inr rfl)
  have h4 : skip_space ('\n' :: fprintf_events es) = fprintf_events es := by
    have : skip_space ('\n' :: fprintf_events es) = skip_space (fprintf_events es) := by
      simp [skip_space, List.dropWhile, c_isspace]
    rw [this, skip_space_fprintf_events]
  simp only [fscanf_event, h1, h2, h4]


theorem round_half_even_near (r : ℚ) (hr : 0 ≤ r) : |(round_half_even r : ℚ) - r| ≤ 1 / 2 := by
  have h1 : ((Nat.floor r : Nat) : ℚ) ≤ r := Nat.floor_le hr
  have h2 : r < ((Nat.floor r : Nat) : ℚ) + 1 := Nat.lt_floor_add_one r
  unfold round_half_even
  simp only
  rw [abs_le]
  split_ifs with ha hb hc <;> push_cast <;> constructor <;> linarith

theorem round6_near (q : ℚ) : |round6 q - q| ≤ 1 / 1000000 := by
  have hn := round_half_even_near (|q| * 1000000) (by positivity)
  rw [abs_le] at hn ⊢
  obtain ⟨hn1, hn2⟩ := hn
  unfold round6
  generalize (round_half_even (|q| * 1000000) : ℚ) = n at hn1 hn2 ⊢
  by_cases hq : q < 0
  · rw [if_pos hq]
    rw [abs_of_neg hq] at hn1 hn2
    constructor <;> linarith
  · rw [if_neg hq]
    rw [abs_of_nonneg (not_lt.mp hq)] at hn1 hn2
    constructor <;> linarith

theorem save_loop_eq (x : t_sliderloop) :
    ∀ (n i : Nat), i + n ≤ x.events.length →
      save_loop x n (i : Int) = some (fprintf_events ((x.events.drop i).take n))
  | 0, i, _ => by simp [save_loop, fprintf_events]
  | n + 1, i, h => by
    have hi : i < x.events.length := by omega
    have ih := save_loop_eq x n (i + 1) (by omega)
    have hd : x.events.drop i = x.events[i] :: x.events.drop (i + 1) :=
      List.drop_eq_getElem_cons hi
    simp only [save_loop, load_event_of_lt _ _ hi]
    rw [show ((i : Int) + 1) = ((i + 1 : Nat) : Int) by push_cast; rfl, ih, hd]
    simp [fprintf_events]


theorem load_store_ok (s : t_sliderloop) (t v : ℚ) (h0 : 0 ≤ s.event_count)
    (hlt : s.event_count < s.events.length) (hmax : s.event_count < 2147483647) :
    ∃ s', load_store s t v = some s' ∧ s'.event_count = s.event_count + 1 ∧
      buffer s' = buffer s ++ [⟨t, v⟩] ∧
      s'.events.length = s.events.length ∧ s'.event_capacity = s.event_capacity ∧
      s'.recording = s.recording ∧ s'.record_start = s.record_start ∧
      s'.playing = s.playing ∧ s'.play_index = s.play_index ∧ s'.play_start = s.play_start ∧
      s'.x_out = s.x_out ∧ s'.x_clock = s.x_clock := by
  have hk : s.event_count.toNat < s.events.length := by omega
  have hw : wrap32 (s.event_count + 1) = s.event_count + 1 := wrap32_of_int _ (by omega) (by omega)
  have ht : (s.event_count + 1).toNat = s.event_count.toNat + 1 := by omega
  simp [load_store, store_event, h0, hk, hw, buffer, ht, take_succ_set _ _ _ hk]

theorem load_append_ok (s : t_sliderloop) (t v : ℚ) (h0 : 0 ≤ s.event_count)
    (hle : s.event_count ≤ s.event_capacity) (hlen : s.event_capacity = s.events.length)
    (hsmall : s.event_count < 1073741824) :
    ∃ s', load_append (fun _ => true) s t v = some (some s') ∧
      s'.event_count = s.event_count + 1 ∧
      buffer s' = buffer s ++ [⟨t, v⟩] ∧
      s'.event_count ≤ s'.event_capacity ∧ s'.event_capacity = s'.events.length ∧
      s'.recording = s.recording ∧ s'.record_start = s.record_start ∧
      s'.playing = s.playing ∧ s'.play_index = s.play_index ∧ s'.play_start = s.play_start ∧
      s'.x_out = s.x_out ∧ s'.x_clock = s.x_clock := by
  by_cases hge : s.event_count ≥ s.event_capacity
  · have hcap : s.event_capacity = s.event_count := by omega
    have hw : wrap32 (s.event_capacity * 2) = s.event_capacity * 2 :=
      wrap32_of_int _ (by omega) (by omega)
    obtain ⟨nc, hnc, hnc1, hnc2⟩ : ∃ nc : Int,
        (if s.event_capacity ≠ 0 then wrap32 (s.event_capacity * 2) else 64) = nc ∧
        1 ≤ nc ∧ s.event_capacity * 2 ≤ nc := by
      refine ⟨_, rfl, ?_, ?_⟩ <;> rw [hw] <;> split_ifs <;> omega
    have hre : realloc true s.events nc =
        some (s.events ++ List.replicate (nc.toNat - s.events.length) default) := by
      have hnn : 0 ≤ nc := by omega
      have htk : s.events.take nc.toNat = s.events := List.take_of_length_le (by omega)
      simp [realloc, hnn, htk]
    obtain ⟨s', hs', hc', hb', hl', hcap', rest⟩ := load_store_ok
      { s with events := s.events ++ List.replicate (nc.toNat - s.events.length) default,
               event_capacity := nc } t v h0
      (by simp only [List.length_append, List.length_replicate]; omega) (by simp only; omega)
    refine ⟨s', ?_, hc', ?_, ?_, ?_, rest⟩
    · simp only [load_append, hge, if_true, hnc, hre, hs', Option.map_some']
    · rw [hb']
      simp only [buffer]
      rw [List.take_append_of_le_length (by omega)]
    · rw [hc', hcap']
      simp only
      omega
    · rw [hcap', hl']
      simp only [List.length_append, List.length_replicate]
      omega
  · obtain ⟨s', hs', hc', hb', hl', hcap', rest⟩ :=
      load_store_ok s t v h0 (by omega) (by omega)
    refine ⟨s', ?_, hc', hb', by omega, by omega, rest⟩
    simp only [load_append, hge, if_false, hs', Option.map_some']

theorem fscanf_event_nil : fscanf_event [] = none := by
  simp [fscanf_event, scan_double, skip_space, scan_sign, scan_digits]

theorem load_loop_events (filename : String) :
    ∀ (es : List t_event) (fuel : Nat) (y : t_sliderloop), es.length < fuel →
      0 ≤ y.event_count → y.event_count ≤ y.event_capacity →
      y.event_capacity = y.events.length → y.event_count + es.length ≤ 1073741824 →
      ∃ s, load_loop filename (fun _ => true) fuel y (fprintf_events es) =
          some (s, [t_post.post
            ("Loaded " ++ toString s.event_count ++ " automation points from " ++ filename)]) ∧
        s.event_count = y.event_count + es.length ∧
        buffer s = buffer y ++ es.map (fun e => ⟨round6 e.time, round6 e.value⟩) ∧
        s.recording = y.recording ∧ s.playing = y.playing ∧ s.play_index = y.play_index ∧
        s.x_out = y.x_out ∧ s.x_clock = y.x_clock
  | [], fuel, y, hf, _, _, _, _ => by
    obtain ⟨fuel', rfl⟩ : ∃ k, fuel = k + 1 := ⟨fuel - 1, by simp at hf; omega⟩
    exact ⟨y, by simp [load_loop, fprintf_events, fscanf_event_nil], by simp, by simp,
      rfl, rfl, rfl, rfl, rfl⟩
  | e :: es, fuel, y, hf, h0, hle, hlen, hsmall => by
    obtain ⟨fuel', rfl⟩ : ∃ k, fuel = k + 1 := ⟨fuel - 1, by simp at hf; omega⟩
    simp only [List.length_cons, Nat.cast_add, Nat.cast_one] at hsmall hf
    obtain ⟨y1, hy1, hc1, hb1, hle1, hlen1, hr1, -, hp1, hi1, -, ho1, hk1⟩ :=
      load_append_ok y (round6 e.time) (round6 e.value) h0 hle hlen (by omega)
    obtain ⟨s, hs, hc, hb, hr, hp, hi, ho, hk⟩ :=
      load_loop_events filename es fuel' y1 (by omega) (by omega) hle1 hlen1 (by omega)
    refine ⟨s, ?_, ?_, ?_, hr.trans hr1, hp.trans hp1, hi.trans hi1, ho.trans ho1,
      hk.trans hk1⟩
    · simp only [load_loop, fprintf_events, fscanf_event_fprintf, hy1]
      exact hs
    · rw [hc, hc1]
      simp only [List.length_cons, Nat.cast_add, Nat.cast_one]
      omega
    · rw [hb, hb1]
      simp


theorem length_le_fprintf_events : ∀ es : List t_event, es.length ≤ (fprintf_events es).length
  | [] => by simp
  | e :: es => by
    have ih := length_le_fprintf_events es
    simp only [fprintf_events, fprintf_event, List.length_append, List.length_cons]
    omega

theorem save_to_file_eq (x : t_sliderloop) (filename : String) (h0 : 0 ≤ x.event_count)
    (hblock : x.event_count ≤ x.events.length) :
    save_to_file x filename true =
      some (some ("sliderloop_data_v1.0\n".toList ++ fprintf_events (buffer x)),
        [t_post.post
          ("Saved " ++ toString x.event_count ++ " automation points to " ++ filename)]) := by
  have h := save_loop_eq x x.event_count.toNat 0 (by omega)
  simp only [Nat.cast_zero, List.drop_zero] at h
  simp only [save_to_file, Bool.not_true, Bool.false_eq_true, if_false, h, buffer]

theorem load_header_ok (y : t_sliderloop) (filename : String) (alloc_ok : Int → Bool)
    (body : List Char) :
    load_from_file y filename (some ("sliderloop_data_v1.0\n".toList ++ body)) alloc_ok =
      load_loop filename alloc_ok (body.length + 1) { y with event_count := 0 } body := by
  have hg : fgets 31 ("sliderloop_data_v1.0\n".toList ++ body) =
      ("sliderloop_data_v1.0\n".toList, body) := by
    simp [fgets]
  have hs : strstr (c_str "sliderloop_data_v1.0\n".toList) "sliderloop_data".toList = some 0 := by
    decide
  simp only [load_from_file, hg, hs]
  simp

/-- C5: a well-formed object holding at most `2^30` events saves (the open succeeding) a file
made of the header line `sliderloop_data_v1.0` and one line per event with six decimals; loading
that file into any well-formed object (open and allocations succeeding) succeeds and gives a
buffer with the same count whose `i`-th time and value are the saved ones rounded to six
decimals, hence within `1e-6` of them. -/
theorem save_load_round_trip (x y : t_sliderloop) (filename : String) (hx : wf x) (hy : wf y)
    (hsmall : x.event_count ≤ 1073741824) :
    ∃ file s,
      save_to_file x filename true = some (some file, [t_post.post
        ("Saved " ++ toString x.event_count ++ " automation points to " ++ filename)]) ∧
      file = "sliderloop_data_v1.0\n".toList ++ fprintf_events (buffer x) ∧
      load_from_file y filename (some file) (fun _ => true) = some (s, [t_post.post
        ("Loaded " ++ toString s.event_count ++ " automation points from " ++ filename)]) ∧
      s.event_count = x.event_count ∧
      buffer s = (buffer x).map (fun e => ⟨round6 e.time, round6 e.value⟩) ∧
      ∀ (i : Nat) (e : t_event), (buffer x)[i]? = some e →
        ∃ e' : t_event, (buffer s)[i]? = some e' ∧ |e'.time - e.time| ≤ 1 / 1000000 ∧
          |e'.value - e.value| ≤ 1 / 1000000 := by
  obtain ⟨hx0, hxle, hxlen, -⟩ := hx
  obtain ⟨-, -, hylen, -⟩ := hy
  have hblen : ((buffer x).length : Int) = x.event_count := by
    simp only [buffer, List.length_take]
    omega
  obtain ⟨s, hs, hc, hb, -⟩ := load_loop_events filename (buffer x)
    ((fprintf_events (buffer x)).length + 1) { y with event_count := 0 }
    (Nat.lt_succ_of_le (length_le_fprintf_events _)) (le_refl _)
    (by simp only; omega) hylen (by simp only; omega)
  have hbs : buffer s = (buffer x).map (fun e => ⟨round6 e.time, round6 e.value⟩) := by
    rw [hb]; simp [buffer]
  refine ⟨_, s, save_to_file_eq x filename hx0 (by omega), rfl, ?_, ?_, hbs, ?_⟩
  · rw [load_header_ok]
    exact hs
  · rw [hc]
    simp only [zero_add]
    exact hblen
  · intro i e he
    refine ⟨⟨round6 e.time, round6 e.value⟩, ?_, round6_near _, round6_near _⟩
    rw [hbs, List.getElem?_map, he]
    rfl

theorem save_load_round_trip_witness :
    ∃ file s,
      save_to_file two_events "a.txt" true = some (some file, [t_post.post
        ("Saved " ++ toString two_events.event_count ++ " automation points to " ++ "a.txt")]) ∧
      file = "sliderloop_data_v1.0\n".toList ++ fprintf_events (buffer two_events) ∧
      load_from_file sliderloop_new "a.txt" (some file) (fun _ => true) = some (s, [t_post.post
        ("Loaded " ++ toString s.event_count ++ " automation points from " ++ "a.txt")]) ∧
      s.event_count = two_events.event_count ∧
      buffer s = (buffer two_events).map (fun e => ⟨round6 e.time, round6 e.value⟩) ∧
      ∀ (i : Nat) (e : t_event), (buffer two_events)[i]? = some e →
        ∃ e' : t_event, (buffer s)[i]? = some e' ∧ |e'.time - e.time| ≤ 1 / 1000000 ∧
          |e'.value - e.value| ≤ 1 / 1000000 :=
  save_load_round_trip two_events sliderloop_new "a.txt" (by decide) (by decide) (by decide)


/-! ### The loop of `load_from_file` never runs out of fuel -/

theorem scan_digits_length : ∀ (s : List Char) (acc k : Nat),
    (scan_digits s acc k).2.2.length + (scan_digits s acc k).2.1 = s.length + k
  | [], acc, k => by simp [scan_digits]
  | c :: cs, acc, k => by
    by_cases hc : c_isdigit c = true
    · have ih := scan_digits_length cs (acc * 10 + (c.toNat - 48)) (k + 1)
      simp only [scan_digits, hc, if_true, List.length_cons]
      omega
    · simp [scan_digits, hc]

theorem skip_space_length (s : List Char) : (skip_space s).length ≤ s.length :=
  (List.dropWhile_suffix _).length_le

theorem scan_sign_length (s : List Char) : (scan_sign s).2.length ≤ s.length := by
  cases s with
  | nil => simp [scan_sign]
  | cons c cs =>
    simp only [scan_sign]
    split_ifs <;> simp

theorem scan_double_consumes (s : List Char) (v : ℚ) (rest : List Char)
    (h : scan_double s = some (v, rest)) : rest.length < s.length := by
  have h0 := skip_space_length s
  have h1 := scan_sign_length (skip_space s)
  have h2 := scan_digits_length (scan_sign (skip_space s)).2 0 0
  simp only [scan_double] at h
  split_ifs at h with hz
  all_goals
    cases hs2 : (scan_digits (scan_sign (skip_space s)).2 0 0).2.2 with
    | nil =>
      simp only [hs2, Option.some.injEq, Prod.mk.injEq] at h hz h2
      rw [← h.2]
      simp only [List.length_nil] at h2 ⊢
      omega
    | cons c cs =>
      simp only [hs2] at h hz h2
      have h3 := scan_digits_length cs 0 0
      simp only [List.length_cons] at h2
      by_cases hdot : c = '.'
      · simp only [hdot, if_true] at h hz
        cases hs3 : (scan_digits cs 0 0).2.2 with
        | nil =>
          simp only [hs3, Option.some.injEq, Prod.mk.injEq] at h h3
          rw [← h.2]
          simp only [List.length_nil] at h3 ⊢
          omega
        | cons c3 cs3 =>
          simp only [hs3] at h h3
          have h4 := scan_sign_length cs3
          have h5 := scan_digits_length (scan_sign cs3).2 0 0
          simp only [List.length_cons] at h3
          split_ifs at h <;> simp only [Option.some.injEq, Prod.mk.injEq] at h <;>
            rw [← h.2] <;> (try simp only [List.length_cons]) <;> omega
      · simp only [hdot, if_false] at h hz
        have h4 := scan_sign_length cs
        have h5 := scan_digits_length (scan_sign cs).2 0 0
        split_ifs at h <;> simp only [Option.some.injEq, Prod.mk.injEq] at h <;>
          rw [← h.2] <;> (try simp only [List.length_cons]) <;> omega

theorem fscanf_event_consumes (f : List Char) (time value : ℚ) (rest : List Char)
    (h : fscanf_event f = some (time, value, rest)) : rest.length < f.length := by
  simp only [fscanf_event] at h
  cases h1 : scan_double f with
  | none => simp [h1] at h
  | some r1 =>
    obtain ⟨t, f1⟩ := r1
    simp only [h1] at h
    cases h2 : scan_double (skip_space f1) with
    | none => simp [h2] at h
    | some r2 =>
      obtain ⟨w, f2⟩ := r2
      simp only [h2, Option.some.injEq, Prod.mk.injEq] at h
      have a1 := scan_double_consumes f t f1 h1
      have a2 := scan_double_consumes _ w f2 h2
      have a3 := skip_space_length f1
      have a4 := skip_space_length f2
      rw [← h.2.2]
      omega

/-- The loop of `load_from_file` gives the same result for every amount of fuel above the
length of the input: the fuel `load_from_file` passes is never used up. -/
theorem load_loop_fuel (filename : String) (alloc_ok : Int → Bool) :
    ∀ (fuel1 fuel2 : Nat) (x : t_sliderloop) (f : List Char),
      f.length < fuel1 → f.length < fuel2 →
      load_loop filename alloc_ok fuel1 x f = load_loop filename alloc_ok fuel2 x f
  | 0, _, _, _, h, _ => by simp at h
  | _ + 1, 0, _, _, _, h => by simp at h
  | fuel1 + 1, fuel2 + 1, x, f, h1, h2 => by
    simp only [load_loop]
    cases hf : fscanf_event f with
    | none => rfl
    | some r =>
      obtain ⟨time, value, rest⟩ := r
      have hlt := fscanf_event_consumes f time value rest hf
      simp only
      cases ha : load_append alloc_ok x time value with
      | none => rfl
      | some o =>
        cases o with
        | none => rfl
        | some x1 =>
          exact load_loop_fuel filename alloc_ok fuel1 fuel2 x1 rest (by omega) (by omega)

/-- With fuel above the length of the input the loop of `load_from_file` is not cut short:
a result `none` there comes from an access outside the block, never from the fuel. -/
theorem load_loop_step (filename : String) (alloc_ok : Int → Bool) (fuel : Nat)
    (x : t_sliderloop) (f : List Char) (h : f.length < fuel) :
    load_loop filename alloc_ok fuel x f =
      match fscanf_event f with
      | none =>
        some (x, [t_post.post
          ("Loaded " ++ toString x.event_count ++ " automation points from " ++ filename)])
      | some (time, value, rest) =>
        match load_append alloc_ok x time value with
        | none => none
        | some none => some (x, [t_post.pd_error "Memory error loading file"])
        | some (some x1) => load_loop filename alloc_ok (rest.length + 1) x1 rest := by
  obtain ⟨k, rfl⟩ : ∃ k, fuel = k + 1 := ⟨fuel - 1, by omega⟩
  simp only [load_loop]
  cases hf : fscanf_event f with
  | none => rfl
  | some r =>
    obtain ⟨time, value, rest⟩ := r
    have hlt := fscanf_event_consumes f time value rest hf
    simp only
    cases ha : load_append alloc_ok x time value with
    | none => rfl
    | some o =>
      cases o with
      | none => rfl
      | some x1 =>
        exact load_loop_fuel filename alloc_ok k (rest.length + 1) x1 rest (by omega) (by omega)

/-! ### Well-formedness is kept by every input -/

theorem wrap32_range (n : Int) : -2147483648 ≤ wrap32 n ∧ wrap32 n ≤ 2147483647 := by
  unfold wrap32
  omega

theorem realloc_length (ok : Bool) (p blk : List t_event) (n : Int)
    (h : realloc ok p n = some blk) : 0 ≤ n ∧ blk.length = n.toNat ∧ ok = true := by
  unfold realloc at h
  split_ifs at h with hc
  simp only [Option.some.injEq] at h
  subst h
  refine ⟨hc.2, ?_, hc.1⟩
  simp only [List.length_append, List.length_take, List.length_replicate]
  omega

theorem realloc_grow (ok : Bool) (p blk : List t_event) (n : Int)
    (h : realloc ok p n = some blk) (hn : p.length ≤ n.toNat) :
    blk = p ++ List.replicate (n.toNat - p.length) default := by
  unfold realloc at h
  split_ifs at h with hc
  simp only [Option.some.injEq] at h
  rw [← h, List.take_of_length_le hn]

/-- What `add_event_store` does when it is defined: the store is inside the block and the count
goes up by one. -/
theorem add_event_store_some (x x' : t_sliderloop) (v t : ℚ)
    (h : add_event_store x v t = some x') (hmax : x.events.length ≤ 2147483647) :
    0 ≤ x.event_count ∧ x.event_count < x.events.length ∧
      x'.event_count = x.event_count + 1 ∧
      buffer x' = buffer x ++ [⟨t - x.record_start, v⟩] ∧
      x'.events.length = x.events.length ∧ x'.event_capacity = x.event_capacity ∧
      x'.recording = x.recording ∧ x'.record_start = x.record_start ∧
      x'.playing = x.playing ∧ x'.play_index = x.play_index ∧ x'.play_start = x.play_start ∧
      x'.x_out = x.x_out ∧ x'.x_clock = x.x_clock := by
  simp only [add_event_store, store_event] at h
  split_ifs at h with hc
  obtain ⟨h0, hk⟩ := hc
  have hlt : x.event_count < x.events.length := by omega
  have hw : wrap32 (x.event_count + 1) = x.event_count + 1 := wrap32_of_int _ (by omega) (by omega)
  have ht : (x.event_count + 1).toNat = x.event_count.toNat + 1 := by omega
  simp only [Option.some.injEq] at h
  subst h
  simp [h0, hlt, hw, buffer, ht, take_succ_set _ _ _ hk]

/-- What `load_store` does when it is defined. -/
theorem load_store_some (x x' : t_sliderloop) (t v : ℚ)
    (h : load_store x t v = some x') (hmax : x.events.length ≤ 2147483647) :
    0 ≤ x.event_count ∧ x.event_count < x.events.length ∧
      x'.event_count = x.event_count + 1 ∧
      buffer x' = buffer x ++ [⟨t, v⟩] ∧
      x'.events.length = x.events.length ∧ x'.event_capacity = x.event_capacity ∧
      x'.recording = x.recording ∧ x'.record_start = x.record_start ∧
      x'.playing = x.playing ∧ x'.play_index = x.play_index ∧ x'.play_start = x.play_start ∧
      x'.x_out = x.x_out ∧ x'.x_clock = x.x_clock := by
  simp only [load_store, store_event] at h
  split_ifs at h with hc
  obtain ⟨h0, hk⟩ := hc
  have hlt : x.event_count < x.events.length := by omega
  have hw : wrap32 (x.event_count + 1) = x.event_count + 1 := wrap32_of_int _ (by omega) (by omega)
  have ht : (x.event_count + 1).toNat = x.event_count.toNat + 1 := by omega
  simp only [Option.some.injEq] at h
  subst h
  simp [h0, hlt, hw, buffer, ht, take_succ_set _ _ _ hk]

/-- The capacity `add_event` asks for when the block is full. -/
theorem add_event_new_capacity (c : Int) (h0 : 0 ≤ c) (hmax : c ≤ 2147483647) :
    (if wrap32 (c * 2) < 16 then 16 else wrap32 (c * 2)) =
      if c < 8 ∨ 1073741824 ≤ c then 16 else c * 2 := by
  unfold wrap32
  split_ifs <;> omega

/-- A float input that is handled without fault on a well-formed object either leaves the object
as it is (failed allocation) or appends one event; the capacity changes exactly when the block
was full, to twice its value and at least 16. -/
theorem add_event_some (x x' : t_sliderloop) (v t : ℚ) (ok : Bool) (hwf : wf x)
    (h : add_event x v t ok = some x') :
    x' = x ∨ (wf x' ∧ x'.event_count = x.event_count + 1 ∧
      buffer x' = buffer x ++ [⟨t - x.record_start, v⟩] ∧
      x'.event_capacity =
        (if x.event_count = x.event_capacity then
          (if x.event_capacity < 8 then 16 else x.event_capacity * 2)
        else x.event_capacity) ∧
      (x.event_count = x.event_capacity → x.event_capacity < 1073741824) ∧
      x'.recording = x.recording ∧ x'.record_start = x.record_start ∧
      x'.playing = x.playing ∧ x'.play_index = x.play_index ∧ x'.play_start = x.play_start ∧
      x'.x_out = x.x_out ∧ x'.x_clock = x.x_clock) := by
  obtain ⟨h0, hle, hlen, hmax⟩ := hwf
  unfold add_event at h
  by_cases hge : x.event_count ≥ x.event_capacity
  · have hcap : x.event_count = x.event_capacity := by omega
    simp only [hge, if_true] at h
    rw [add_event_new_capacity _ (by omega) hmax] at h
    cases hre : realloc ok x.events
        (if x.event_capacity < 8 ∨ 1073741824 ≤ x.event_capacity then 16
          else x.event_capacity * 2) with
    | none =>
      simp only [hre, Option.some.injEq] at h
      exact Or.inl h.symm
    | some blk =>
      simp only [hre] at h
      obtain ⟨hn0, hblen, -⟩ := realloc_length _ _ _ _ hre
      obtain ⟨-, hlt, hc', hb', hl', hcap', rest⟩ := add_event_store_some _ x' _ _ h
        (by simp only [hblen]; split_ifs <;> omega)
      try simp only at hlt
      try simp only at hc'
      try simp only [buffer] at hb'
      try simp only at hl'
      try simp only at hcap'
      try simp only at rest
      have hsmall : x.event_capacity < 1073741824 := by
        by_contra hbig
        rw [if_pos (Or.inr (by omega))] at hblen
        rw [hblen] at hlt
        omega
      have hnc : (if x.event_capacity < 8 ∨ 1073741824 ≤ x.event_capacity then (16 : Int)
          else x.event_capacity * 2) =
          if x.event_capacity < 8 then 16 else x.event_capacity * 2 := by
        split_ifs <;> omega
      rw [hnc] at hblen hcap' hre
      have hblk := realloc_grow _ _ _ _ hre (by rw [← hblen]; omega)
      refine Or.inr ⟨⟨by omega, ?_, ?_, ?_⟩, hc', ?_, ?_, fun _ => hsmall, rest⟩
      · rw [hc', hcap']; split_ifs <;> omega
      · rw [hcap', hl', hblen]; split_ifs <;> omega
      · rw [hcap']; split_ifs <;> omega
      · simp only [buffer]
        rw [hb', hblk, List.take_append_of_le_length (by omega)]
      · rw [hcap', if_pos hcap]
  · simp only [hge, if_false] at h
    obtain ⟨-, hlt, hc', hb', hl', hcap', rest⟩ := add_event_store_some x x' _ _ h (by omega)
    refine Or.inr ⟨⟨by omega, by omega, by omega, by omega⟩, hc', hb', ?_, ?_, rest⟩
    · rw [hcap', if_neg (by omega)]
    · intro heq
      omega


/-- One pair stored by `load_from_file` without fault on a well-formed object. -/
theorem load_append_some (alloc_ok : Int → Bool) (x x' : t_sliderloop) (t v : ℚ) (hwf : wf x)
    (h : load_append alloc_ok x t v = some (some x')) :
    wf x' ∧ x'.event_count = x.event_count + 1 ∧ buffer x' = buffer x ++ [⟨t, v⟩] ∧
      x'.recording = x.recording ∧ x'.record_start = x.record_start ∧
      x'.playing = x.playing ∧ x'.play_index = x.play_index ∧ x'.play_start = x.play_start ∧
      x'.x_out = x.x_out ∧ x'.x_clock = x.x_clock := by
  obtain ⟨h0, hle, hlen, hmax⟩ := hwf
  unfold load_append at h
  by_cases hge : x.event_count ≥ x.event_capacity
  · have hcap : x.event_count = x.event_capacity := by omega
    simp only [hge, if_true] at h
    generalize hnc : (if x.event_capacity ≠ 0 then wrap32 (x.event_capacity * 2) else 64) = nc at h
    have hncmax : nc ≤ 2147483647 := by
      rw [← hnc]; split_ifs
      · exact (wrap32_range _).2
      · omega
    cases hre : realloc (alloc_ok nc) x.events nc with
    | none => simp [hre] at h
    | some blk =>
      simp only [hre] at h
      obtain ⟨hn0, hblen, -⟩ := realloc_length _ _ _ _ hre
      cases hst : load_store { x with events := blk, event_capacity := nc } t v with
      | none => simp [hst] at h
      | some y =>
        simp only [hst, Option.map_some', Option.some.injEq] at h
        subst h
        obtain ⟨-, hlt, hc', hb', hl', hcap', rest⟩ := load_store_some _ y _ _ hst
          (by simp only [hblen]; omega)
        try simp only at hlt
        try simp only at hc'
        try simp only [buffer] at hb'
        try simp only at hl'
        try simp only at hcap'
        try simp only at rest
        have hblk := realloc_grow _ _ _ _ hre (by omega)
        refine ⟨⟨by omega, by omega, by omega, by omega⟩, hc', ?_, rest⟩
        simp only [buffer]
        rw [hb', hblk, List.take_append_of_le_length (by omega)]
  · simp only [hge, if_false] at h
    cases hst : load_store x t v with
    | none => simp [hst] at h
    | some y =>
      simp only [hst, Option.map_some', Option.some.injEq] at h
      subst h
      obtain ⟨-, hlt, hc', hb', hl', hcap', rest⟩ := load_store_some x y _ _ hst (by omega)
      exact ⟨⟨by omega, by omega, by omega, by omega⟩, hc', hb', rest⟩

/-- The loop of `load_from_file` keeps a well-formed object well-formed and does not touch the
flags, the cursor, the outlet or the timer. -/
theorem load_loop_some (filename : String) (alloc_ok : Int → Bool) :
    ∀ (fuel : Nat) (x : t_sliderloop) (f : List Char) (r : t_sliderloop × List t_post),
      wf x → load_loop filename alloc_ok fuel x f = some r →
      wf r.1 ∧ r.1.recording = x.recording ∧ r.1.record_start = x.record_start ∧
        r.1.playing = x.playing ∧ r.1.play_index = x.play_index ∧
        r.1.play_start = x.play_start ∧ r.1.x_out = x.x_out ∧ r.1.x_clock = x.x_clock
  | 0, _, _, _, _, h => by simp [load_loop] at h
  | fuel + 1, x, f, r, hwf, h => by
    simp only [load_loop] at h
    cases hf : fscanf_event f with
    | none =>
      simp only [hf, Option.some.injEq] at h
      subst h
      exact ⟨hwf, rfl, rfl, rfl, rfl, rfl, rfl, rfl⟩
    | some p =>
      obtain ⟨time, value, rest⟩ := p
      simp only [hf] at h
      cases ha : load_append alloc_ok x time value with
      | none => simp [ha] at h
      | some o =>
        cases o with
        | none =>
          simp only [ha, Option.some.injEq] at h
          subst h
          exact ⟨hwf, rfl, rfl, rfl, rfl, rfl, rfl, rfl⟩
        | some x1 =>
          simp only [ha] at h
          obtain ⟨hwf1, -, -, a1, a2, a3, a4, a5, a6, a7⟩ :=
            load_append_some alloc_ok x x1 time value hwf ha
          obtain ⟨hw, b1, b2, b3, b4, b5, b6, b7⟩ :=
            load_loop_some filename alloc_ok fuel x1 rest r hwf1 h
          exact ⟨hw, b1.trans a1, b2.trans a2, b3.trans a3, b4.trans a4, b5.trans a5,
            b6.trans a6, b7.trans a7⟩

theorem load_from_file_some (x : t_sliderloop) (filename : String) (file : Option (List Char))
    (alloc_ok : Int → Bool) (r : t_sliderloop × List t_post) (hwf : wf x)
    (h : load_from_file x filename file alloc_ok = some r) :
    wf r.1 ∧ r.1.recording = x.recording ∧ r.1.record_start = x.record_start ∧
      r.1.playing = x.playing ∧ r.1.play_index = x.play_index ∧
      r.1.play_start = x.play_start ∧ r.1.x_out = x.x_out ∧ r.1.x_clock = x.x_clock := by
  obtain ⟨h0, hle, hlen, hmax⟩ := hwf
  cases file with
  | none =>
    simp only [load_from_file, Option.some.injEq] at h
    subst h
    exact ⟨⟨h0, hle, hlen, hmax⟩, rfl, rfl, rfl, rfl, rfl, rfl, rfl⟩
  | some f =>
    simp only [load_from_file] at h
    split_ifs at h with hc
    · simp only [Option.some.injEq] at h
      subst h
      exact ⟨⟨le_refl _, by simp only; omega, hlen, hmax⟩, rfl, rfl, rfl, rfl, rfl, rfl, rfl⟩
    · exact load_loop_some filename alloc_ok _ { x with event_count := 0 } _ r
        ⟨le_refl _, by simp only; omega, hlen, hmax⟩ h

/-- `schedule_next` changes nothing but the timer. -/
theorem schedule_next_some (x x' : t_sliderloop) (t : ℚ) (h : schedule_next x t = some x') :
    x'.events = x.events ∧ x'.event_count = x.event_count ∧
      x'.event_capacity = x.event_capacity ∧ x'.recording = x.recording ∧
      x'.record_start = x.record_start ∧ x'.playing = x.playing ∧
      x'.play_index = x.play_index ∧ x'.play_start = x.play_start ∧ x'.x_out = x.x_out := by
  unfold schedule_next at h
  split_ifs at h with hc
  · simp only [Option.some.injEq] at h
    subst h
    exact ⟨rfl, rfl, rfl, rfl, rfl, rfl, rfl, rfl, rfl⟩
  · cases hl : load_event x.events x.play_index with
    | none => simp [hl] at h
    | some e =>
      simp only [hl, Option.some.injEq] at h
      subst h
      exact ⟨rfl, rfl, rfl, rfl, rfl, rfl, rfl, rfl, rfl⟩


/-- The clock callback never touches the buffer, the capacity or the flags. -/
theorem playback_tick_some (x x' : t_sliderloop) (a b : ℚ)
    (h : playback_tick x a b = some x') :
    x'.events = x.events ∧ x'.event_count = x.event_count ∧
      x'.event_capacity = x.event_capacity ∧ x'.recording = x.recording ∧
      x'.record_start = x.record_start ∧ x'.playing = x.playing := by
  unfold playback_tick at h
  split_ifs at h with hc
  · simp only [Option.some.injEq] at h
    subst h
    exact ⟨rfl, rfl, rfl, rfl, rfl, rfl⟩
  · cases hl : load_event x.events x.play_index with
    | none => simp [hl] at h
    | some e =>
      simp only [hl] at h
      obtain ⟨h1, h2, h3, h4, h5, h6, -⟩ := schedule_next_some _ x' b h
      split_ifs at h1 h2 h3 h4 h5 h6 <;> exact ⟨h1, h2, h3, h4, h5, h6⟩

theorem clock_fire_some (x x' : t_sliderloop) (a b : ℚ) (h : clock_fire x a b = some x') :
    x'.events = x.events ∧ x'.event_count = x.event_count ∧
      x'.event_capacity = x.event_capacity ∧ x'.recording = x.recording ∧
      x'.record_start = x.record_start ∧ x'.playing = x.playing := by
  unfold clock_fire at h
  cases hc : x.x_clock with
  | none =>
    simp only [hc, Option.some.injEq] at h
    subst h
    exact ⟨rfl, rfl, rfl, rfl, rfl, rfl⟩
  | some d =>
    simp only [hc] at h
    have h' := playback_tick_some _ x' a b h
    exact h'

/-- `play` never touches the buffer or the capacity. -/
theorem start_playback_some (x x' : t_sliderloop) (a b : ℚ)
    (h : start_playback x a b = some x') :
    x'.events = x.events ∧ x'.event_count = x.event_count ∧
      x'.event_capacity = x.event_capacity ∧ x'.record_start = x.record_start ∧
      (x.event_count = 0 → x' = x) ∧
      (x.event_count ≠ 0 → x'.recording = false ∧ x'.playing = true ∧ x'.play_index = 0 ∧
        x'.play_start = a) := by
  unfold start_playback at h
  split_ifs at h with hc
  · simp only [Option.some.injEq] at h
    subst h
    exact ⟨rfl, rfl, rfl, rfl, fun _ => rfl, fun hne => absurd hc hne⟩
  · obtain ⟨h1, h2, h3, h4, h5, h6, h7, h8, -⟩ := schedule_next_some _ x' b h
    exact ⟨h1, h2, h3, h5, fun h0 => absurd h0 hc, fun _ => ⟨h4, h6, h7, h8⟩⟩

theorem wf_of_same (x x' : t_sliderloop) (hwf : wf x) (h1 : x'.events = x.events)
    (h2 : x'.event_count = x.event_count) (h3 : x'.event_capacity = x.event_capacity) :
    wf x' := by
  unfold wf at hwf ⊢
  rw [h1, h2, h3]
  exact hwf

/-- Every input handled without fault leaves a well-formed object well-formed. -/
theorem step_wf (x x' : t_sliderloop) (i : t_input) (hwf : wf x) (h : step x i = some x') :
    wf x' := by
  cases i with
  | record now =>
    simp only [step, Option.some.injEq] at h
    subst h
    obtain ⟨h0, hle, hlen, hmax⟩ := hwf
    exact ⟨le_refl _, by simp only [start_recording]; omega, hlen, hmax⟩
  | stop =>
    simp only [step, Option.some.injEq] at h
    subst h
    exact hwf
  | play a b =>
    obtain ⟨h1, h2, h3, -⟩ := start_playback_some x x' a b h
    exact wf_of_same x x' hwf h1 h2 h3
  | save filename ok =>
    simp only [step] at h
    cases hs : save_to_file x filename ok with
    | none => simp [hs] at h
    | some r =>
      simp only [hs, Option.map_some', Option.some.injEq] at h
      subst h
      exact hwf
  | load filename file alloc_ok =>
    simp only [step] at h
    cases hs : load_from_file x filename file alloc_ok with
    | none => simp [hs] at h
    | some r =>
      simp only [hs, Option.map_some', Option.some.injEq] at h
      subst h
      exact (load_from_file_some x filename file alloc_ok r hwf hs).1
  | float f now ok =>
    simp only [step, sliderloop_float] at h
    split_ifs at h with hr
    · rcases add_event_some x x' f now ok hwf h with rfl | ⟨hw, -⟩
      · exact hwf
      · exact hw
    · simp only [Option.some.injEq] at h
      subst h
      exact hwf
  | tick a b =>
    obtain ⟨h1, h2, h3, -⟩ := clock_fire_some x x' a b h
    exact wf_of_same x x' hwf h1 h2 h3

theorem wf_new : wf sliderloop_new := by decide

theorem run_wf : ∀ (is : List t_input) (x x' : t_sliderloop), wf x → run x is = some x' → wf x'
  | [], x, x', hwf, h => by
    simp only [run, Option.some.injEq] at h
    subst h
    exact hwf
  | i :: is, x, x', hwf, h => by
    simp only [run] at h
    cases hs : step x i with
    | none => simp [hs] at h
    | some x1 =>
      simp only [hs] at h
      exact run_wf is x1 x' (step_wf x x1 i hwf hs) h

theorem run_append (x : t_sliderloop) : ∀ (is js : List t_input),
    run x (is ++ js) = (run x is).bind fun y => run y js := by
  intro is
  induction is generalizing x with
  | nil => intro js; rfl
  | cons i is ih =>
    intro js
    simp only [List.cons_append, run]
    cases step x i with
    | none => rfl
    | some x1 => exact ih x1 js

/-! ### The scheduler and the clock callback, one call at a time -/

theorem clamp_eq_max (d : ℚ) : (if d < 0 then 0 else d) = max 0 d := by
  rw [max_def]
  split_ifs <;> linarith

theorem buffer_load_event (x : t_sliderloop) (i : Int) (h0 : 0 ≤ i) (hlt : i < x.event_count)
    (hblock : x.event_count ≤ x.events.length) :
    ∃ e, (buffer x)[i.toNat]? = some e ∧ load_event x.events i = some e := by
  have hil : i.toNat < x.events.length := by omega
  refine ⟨x.events[i.toNat], ?_, ?_⟩
  · rw [buffer_getElem? x _ (by omega)]
    exact List.getElem?_eq_getElem hil
  · simp [load_event, h0, List.getElem?_eq_getElem hil]

/-- `schedule_next` on a playing object whose cursor is inside the buffer. -/
theorem schedule_next_eq (x : t_sliderloop) (now : ℚ) (e : t_event) (hp : x.playing = true)
    (hlt : x.play_index < x.event_count) (he : load_event x.events x.play_index = some e) :
    schedule_next x now =
      some { x with x_clock := some (max 0 (x.play_start + e.time - now)) } := by
  have hnot : ¬ (x.event_count ≤ x.play_index) := not_le.mpr hlt
  simp only [schedule_next, hp, he, ge_iff_le, hnot, ← clamp_eq_max]
  simp

/-- `schedule_next` when there is nothing to schedule. -/
theorem schedule_next_idle (x : t_sliderloop) (now : ℚ)
    (h : x.playing = false ∨ x.play_index ≥ x.event_count) : schedule_next x now = some x := by
  rcases h with h | h
  · simp [schedule_next, h]
  · simp [schedule_next, h]

/-- C17: on a playing object whose cursor is inside the buffer, `schedule_next` arms the timer
with the delay `max 0 (play_start + events[play_index].time - now)` and changes nothing else;
the delay is never negative and is 0 exactly when the target time is not after `now`.  When
`playing` is false or the cursor is at or past `event_count`, it returns the object as it is, so
no timer is armed. -/
theorem schedule_next_spec (x : t_sliderloop) (now : ℚ) (hidx : 0 ≤ x.play_index)
    (hblock : x.event_count ≤ x.events.length) :
    ((x.playing = true ∧ x.play_index < x.event_count) →
      ∃ (e : t_event) (d : ℚ), (buffer x)[x.play_index.toNat]? = some e ∧
        schedule_next x now = some { x with x_clock := some d } ∧
        d = max 0 (x.play_start + e.time - now) ∧ 0 ≤ d ∧
        (d = 0 ↔ x.play_start + e.time ≤ now)) ∧
    ((x.playing = false ∨ x.play_index ≥ x.event_count) → schedule_next x now = some x) := by
  refine ⟨?_, schedule_next_idle x now⟩
  rintro ⟨hp, hlt⟩
  obtain ⟨e, hb, he⟩ := buffer_load_event x x.play_index hidx hlt hblock
  refine ⟨e, _, hb, schedule_next_eq x now e hp hlt he, rfl, le_max_left _ _, ?_⟩
  rw [max_eq_left_iff]
  constructor <;> intro h <;> linarith


theorem schedule_next_spec_witness :
    ((playing_last.playing = true ∧ playing_last.play_index < playing_last.event_count) →
      ∃ (e : t_event) (d : ℚ), (buffer playing_last)[playing_last.play_index.toNat]? = some e ∧
        schedule_next playing_last 140 = some { playing_last with x_clock := some d } ∧
        d = max 0 (playing_last.play_start + e.time - 140) ∧ 0 ≤ d ∧
        (d = 0 ↔ playing_last.play_start + e.time ≤ 140)) ∧
    ((playing_last.playing = false ∨ playing_last.play_index ≥ playing_last.event_count) →
      schedule_next playing_last 140 = some playing_last) :=
  schedule_next_spec playing_last 140 (by decide) (by decide)

/-- The clock callback on a playing object whose cursor is inside the buffer. -/
theorem playback_tick_eq (x : t_sliderloop) (t_loop t_sched : ℚ) (e : t_event)
    (hp : x.playing = true) (h0 : 0 ≤ x.play_index) (hlt : x.play_index < x.event_count)
    (hmax : x.event_count ≤ 2147483647) (he : load_event x.events x.play_index = some e) :
    playback_tick x t_loop t_sched = schedule_next
      (if x.play_index + 1 = x.event_count then
        { x with x_out := x.x_out ++ [e.value], play_index := 0, play_start := t_loop }
      else { x with x_out := x.x_out ++ [e.value], play_index := x.play_index + 1 })
      t_sched := by
  have hw : wrap32 (x.play_index + 1) = x.play_index + 1 := wrap32_of_int _ (by omega) (by omega)
  rw [playback_tick_emit x t_loop t_sched e hp hlt he, hw]
  by_cases hlast : x.play_index + 1 = x.event_count
  · rw [if_pos hlast, if_pos (by omega)]
  · rw [if_neg hlast, if_neg (by omega)]

/-- C16: when `playing` is false or the cursor is at or past `event_count`, the clock callback
returns the object as it is (nothing emitted, no timer armed).  Otherwise, on a well-formed
object, it appends exactly `events[play_index].value` to the outlet; if `play_index + 1 <
event_count` the cursor becomes `play_index + 1` and `play_start` is kept, if `play_index + 1 =
event_count` the cursor becomes 0 and `play_start` is the clock reading; in both cases a timer is
armed for the event under the new cursor and the buffer, the capacity and the flags are as
before. -/
theorem playback_tick_spec (x : t_sliderloop) (t_loop t_sched : ℚ) (hwf : wf x)
    (hidx : 0 ≤ x.play_index) :
    ((x.playing = false ∨ x.play_index ≥ x.event_count) →
      playback_tick x t_loop t_sched = some x) ∧
    ((x.playing = true ∧ x.play_index < x.event_count) →
      ∃ e : t_event, (buffer x)[x.play_index.toNat]? = some e ∧
        (x.play_index + 1 < x.event_count →
          ∃ e1 : t_event, (buffer x)[(x.play_index + 1).toNat]? = some e1 ∧
            playback_tick x t_loop t_sched = some
              { x with x_out := x.x_out ++ [e.value], play_index := x.play_index + 1,
                       x_clock := some (max 0 (x.play_start + e1.time - t_sched)) }) ∧
        (x.play_index + 1 = x.event_count →
          ∃ e0 : t_event, (buffer x)[0]? = some e0 ∧
            playback_tick x t_loop t_sched = some
              { x with x_out := x.x_out ++ [e.value], play_index := 0, play_start := t_loop,
                       x_clock := some (max 0 (t_loop + e0.time - t_sched)) })) := by
  obtain ⟨hc0, hle, hlen, hmax⟩ := hwf
  have hblock : x.event_count ≤ x.events.length := by omega
  constructor
  · rintro (h | h)
    · simp [playback_tick, h]
    · simp [playback_tick, h]
  · rintro ⟨hp, hlt⟩
    obtain ⟨e, hb, he⟩ := buffer_load_event x x.play_index hidx hlt hblock
    have htick := playback_tick_eq x t_loop t_sched e hp hidx hlt (by omega) he
    refine ⟨e, hb, ?_, ?_⟩
    · intro hnext
      obtain ⟨e1, hb1, he1⟩ := buffer_load_event x (x.play_index + 1) (by omega) hnext hblock
      refine ⟨e1, hb1, ?_⟩
      rw [htick, if_neg (by omega)]
      exact schedule_next_eq _ t_sched e1 hp hnext he1
    · intro hlast
      obtain ⟨e0, hb0, he0⟩ := buffer_load_event x 0 (le_refl _) (by omega) hblock
      refine ⟨e0, hb0, ?_⟩
      rw [htick, if_pos hlast]
      exact schedule_next_eq _ t_sched e0 hp (by simp only; omega) he0

theorem playback_tick_spec_witness :
    ((playing_last.playing = false ∨ playing_last.play_index ≥ playing_last.event_count) →
      playback_tick playing_last 160 161 = some playing_last) ∧
    ((playing_last.playing = true ∧ playing_last.play_index < playing_last.event_count) →
      ∃ e : t_event, (buffer playing_last)[playing_last.play_index.toNat]? = some e ∧
        (playing_last.play_index + 1 < playing_last.event_count →
          ∃ e1 : t_event, (buffer playing_last)[(playing_last.play_index + 1).toNat]? = some e1 ∧
            playback_tick playing_last 160 161 = some
              { playing_last with
                  x_out := playing_last.x_out ++ [e.value],
                  play_index := playing_last.play_index + 1,
                  x_clock := some (max 0 (playing_last.play_start + e1.time - 161)) }) ∧
        (playing_last.play_index + 1 = playing_last.event_count →
          ∃ e0 : t_event, (buffer playing_last)[0]? = some e0 ∧
            playback_tick playing_last 160 161 = some
              { playing_last with
                  x_out := playing_last.x_out ++ [e.value], play_index := 0, play_start := 160,
                  x_clock := some (max 0 (160 + e0.time - 161)) })) :=
  playback_tick_spec playing_last 160 161 (by decide) (by decide)

/-- C19: on a recording object whose block is full (`event_count >= event_capacity`), a float
input whose `realloc` fails returns the object exactly as it was: count, capacity, every stored
event and the flags are unchanged, `recording` stays true and the sample is dropped. -/
theorem float_alloc_failure (x : t_sliderloop) (v now : ℚ) (hr : x.recording = true)
    (hfull : x.event_count ≥ x.event_capacity) :
    sliderloop_float x v now false = some x ∧
      (∀ x', sliderloop_float x v now false = some x' →
        x'.event_count = x.event_count ∧ x'.event_capacity = x.event_capacity ∧
          x'.events = x.events ∧ buffer x' = buffer x ∧ x'.recording = true) := by
  have h : sliderloop_float x v now false = some x := by
    simp [sliderloop_float, hr, add_event, hfull, realloc]
  refine ⟨h, ?_⟩
  intro x' hx'
  rw [h, Option.some.injEq] at hx'
  subst hx'
  exact ⟨rfl, rfl, rfl, rfl, hr⟩

theorem float_alloc_failure_witness :
    sliderloop_float (start_recording sliderloop_new 3) 7 4 false =
        some (start_recording sliderloop_new 3) ∧
      (∀ x', sliderloop_float (start_recording sliderloop_new 3) 7 4 false = some x' →
        x'.event_count = (start_recording sliderloop_new 3).event_count ∧
          x'.event_capacity = (start_recording sliderloop_new 3).event_capacity ∧
          x'.events = (start_recording sliderloop_new 3).events ∧
          buffer x' = buffer (start_recording sliderloop_new 3) ∧ x'.recording = true) :=
  float_alloc_failure (start_recording sliderloop_new 3) 7 4 rfl (by decide)

/-! ### The doubling policy of `add_event` -/

theorem least_doubling (cap k : Int) (j : Nat) (h1 : cap = 16 * 2 ^ j) (h2 : k ≤ cap)
    (h3 : cap = 16 ∨ cap < 2 * k) : IsLeast (doubling_caps ∩ {c | k ≤ c}) cap := by
  refine ⟨⟨⟨j, h1⟩, h2⟩, ?_⟩
  rintro c ⟨⟨j', hc⟩, hk⟩
  simp only [Set.mem_setOf_eq] at hk
  have hpos : (1 : Int) ≤ 2 ^ j' := one_le_pow₀ (by norm_num)
  rcases h3 with h3 | h3
  · rw [h3, hc]; omega
  · have hlt : (2 : Int) ^ j < 2 ^ (j' + 1) := by
      rw [pow_succ]; omega
    have hj : j < j' + 1 := (pow_lt_pow_iff_right₀ (by norm_num : (1 : Int) < 2)).mp hlt
    have hle : (2 : Int) ^ j ≤ 2 ^ j' := pow_le_pow_right₀ (by norm_num) (by omega)
    rw [h1, hc]; omega


/-- One more float input, every allocation succeeding, on a well-formed recording object with
fewer than `2^30` events: the event is appended and the capacity follows the doubling policy. -/
theorem float_step (s : t_sliderloop) (v t : ℚ) (hwf : wf s) (hr : s.recording = true)
    (hsmall : s.event_count < 1073741824) :
    ∃ s', step s (.float v t true) = some s' ∧ wf s' ∧ s'.recording = true ∧
      s'.record_start = s.record_start ∧ s'.event_count = s.event_count + 1 ∧
      buffer s' = buffer s ++ [⟨t - s.record_start, v⟩] ∧
      s'.event_capacity =
        (if s.event_count = s.event_capacity then
          (if s.event_capacity < 8 then 16 else s.event_capacity * 2)
        else s.event_capacity) := by
  obtain ⟨h0, hle, hlen, hmax⟩ := hwf
  obtain ⟨s', hs', hc', -⟩ := add_event_ok s v t h0 hle hlen hsmall
  rcases add_event_some s s' v t true ⟨h0, hle, hlen, hmax⟩ hs' with rfl | ⟨hw, -, hb, hcap, -, hr', hrs, -⟩
  · omega
  · refine ⟨s', ?_, hw, hr'.trans hr, hrs, hc', hb, hcap⟩
    simp only [step, sliderloop_float, hr, if_true, hs']

theorem float_inputs_append (ps : List (ℚ × ℚ)) (p : ℚ × ℚ) :
    float_inputs (ps ++ [p]) = float_inputs ps ++ [t_input.float p.1 p.2 true] := by
  simp [float_inputs]

/-- The object after `record` and the float inputs `ps` on a fresh object, for at most `2^30`
inputs. -/
theorem record_floats_state (t_r : ℚ) (ps : List (ℚ × ℚ)) :
    ps.length ≤ 1073741824 →
    ∃ s, run sliderloop_new (.record t_r :: float_inputs ps) = some s ∧ wf s ∧
      s.recording = true ∧ s.record_start = t_r ∧ s.event_count = ps.length ∧
      buffer s = ps.map (fun p => ⟨p.2 - t_r, p.1⟩) ∧
      (ps = [] → s.event_capacity = 0) ∧
      (ps ≠ [] → ∃ j : Nat, s.event_capacity = 16 * 2 ^ j ∧
        (s.event_capacity = 16 ∨ s.event_capacity < 2 * ps.length)) := by
  induction ps using List.reverseRecOn with
  | nil =>
    intro _
    refine ⟨start_recording sliderloop_new t_r, rfl, ?_, rfl, rfl, rfl, rfl,
      fun _ => rfl, fun h => absurd rfl h⟩
    exact ⟨le_refl _, le_refl _, rfl, by simp [start_recording, sliderloop_new]⟩
  | append_singleton ps p ih =>
    intro hlen
    simp only [List.length_append, List.length_singleton] at hlen
    obtain ⟨s, hrun, hwf, hr, hrs, hc, hb, hcap0, hcapj⟩ := ih (by omega)
    obtain ⟨s', hstep, hwf', hr', hrs', hc', hb', hcap'⟩ :=
      float_step s p.1 p.2 hwf hr (by omega)
    refine ⟨s', ?_, hwf', hr', hrs'.trans hrs, ?_, ?_, ?_, ?_⟩
    · rw [float_inputs_append, ← List.cons_append, run_append, hrun]
      simp only [Option.some_bind, run, hstep]
    · rw [hc', hc]; simp
    · rw [hb', hb, hrs]; simp
    · intro h; simp at h
    · intro _
      obtain ⟨-, hle, -, -⟩ := hwf
      by_cases hnil : ps = []
      · have h0 := hcap0 hnil
        subst hnil
        simp only [List.length_nil, Nat.cast_zero] at hc
        refine ⟨0, ?_, Or.inl ?_⟩ <;> rw [hcap', hc, h0] <;> simp
      · obtain ⟨j, hj, hjs⟩ := hcapj hnil
        have hpos : (1 : Int) ≤ 2 ^ j := one_le_pow₀ (by norm_num)
        simp only [List.length_append, List.length_singleton, Nat.cast_add, Nat.cast_one]
        by_cases hfull : s.event_count = s.event_capacity
        · refine ⟨j + 1, ?_, Or.inr ?_⟩
          · rw [hcap', if_pos hfull, if_neg (by omega), hj, pow_succ]; ring
          · rw [hcap', if_pos hfull, if_neg (by omega)]; omega
        · refine ⟨j, ?_, ?_⟩
          · rw [hcap', if_neg hfull, hj]
          · rw [hcap', if_neg hfull]
            rcases hjs with h16 | h2
            · exact Or.inl h16
            · exact Or.inr (by omega)


/-- After `record` and exactly `2^30` float inputs the block is full: count and capacity are
both `2^30`. -/
theorem full_state (t_r : ℚ) (ps : List (ℚ × ℚ)) (hlen : ps.length = 1073741824) :
    ∃ s, run sliderloop_new (.record t_r :: float_inputs ps) = some s ∧ wf s ∧
      s.recording = true ∧ s.record_start = t_r ∧ s.event_count = 1073741824 ∧
      s.event_capacity = 1073741824 := by
  obtain ⟨s, hrun, hwf, hr, hrs, hc, -, -, hcap⟩ := record_floats_state t_r ps (by omega)
  have hne : ps ≠ [] := by
    intro h
    rw [h] at hlen
    simp at hlen
  obtain ⟨j, hj, hjs⟩ := hcap hne
  rw [hlen] at hc hjs
  simp only [Nat.cast_ofNat] at hc hjs
  refine ⟨s, hrun, hwf, hr, hrs, hc, ?_⟩
  obtain ⟨-, hle, -, -⟩ := hwf
  have hlow : (2 : Int) ^ 26 ≤ 2 ^ j := by
    have : (1073741824 : Int) = 16 * 2 ^ 26 := by norm_num
    omega
  have hhigh : (2 : Int) ^ j < 2 ^ 27 := by
    have : (2 : Int) ^ 27 = 134217728 := by norm_num
    rcases hjs with h | h <;> omega
  have h1 : 26 ≤ j := (pow_le_pow_iff_right₀ (by norm_num : (1 : Int) < 2)).mp hlow
  have h2 : j < 27 := (pow_lt_pow_iff_right₀ (by norm_num : (1 : Int) < 2)).mp hhigh
  have hj26 : j = 26 := by omega
  rw [hj, hj26]
  norm_num

/-- The float input on a full block of at least `2^30` cells, the allocation succeeding:
`event_capacity * 2` wraps below 16, the block is cut down to 16 cells and the store at
`events[event_count]` is outside it. -/
theorem float_overflow (x : t_sliderloop) (v t : ℚ) (hwf : wf x)
    (hfull : x.event_count = x.event_capacity) (hbig : 1073741824 ≤ x.event_capacity) :
    (if wrap32 (x.event_capacity * 2) < 16 then 16 else wrap32 (x.event_capacity * 2)) = 16 ∧
      realloc true x.events 16 = some (x.events.take 16) ∧
      (x.events.take 16).length = 16 ∧
      add_event x v t true =
        add_event_store { x with events := x.events.take 16, event_capacity := 16 } v t ∧
      store_event (x.events.take 16) x.event_count ⟨t - x.record_start, v⟩ = none ∧
      add_event x v t true = none := by
  obtain ⟨h0, hle, hlen, hmax⟩ := hwf
  have hnc : (if wrap32 (x.event_capacity * 2) < 16 then 16 else wrap32 (x.event_capacity * 2))
      = 16 := by
    rw [add_event_new_capacity _ (by omega) hmax, if_pos (Or.inr hbig)]
  have hre : realloc true x.events 16 = some (x.events.take 16) := by
    have h16 : (16 : Int).toNat - x.events.length = 0 := by omega
    simp only [realloc, h16, List.replicate_zero, List.append_nil]
    simp
  have hl16 : (x.events.take 16).length = 16 := by
    rw [List.length_take]; omega
  have hadd : add_event x v t true =
      add_event_store { x with events := x.events.take 16, event_capacity := 16 } v t := by
    have hge : x.event_count ≥ x.event_capacity := by omega
    simp only [add_event, hge, if_true, hnc, hre]
  have hst : store_event (x.events.take 16) x.event_count ⟨t - x.record_start, v⟩ = none := by
    simp only [store_event, hl16]
    rw [if_neg (by omega)]
  refine ⟨hnc, hre, hl16, hadd, hst, ?_⟩
  rw [hadd]
  simp only [add_event_store, hst]

/-- A run of `record` and float inputs that is handled without fault has at most `2^30`
inputs. -/
theorem run_floats_bound (t_r : ℚ) (qs : List (ℚ × ℚ)) (s : t_sliderloop)
    (h : run sliderloop_new (.record t_r :: float_inputs qs) = some s) :
    qs.length ≤ 1073741824 := by
  by_contra hgt
  have hsplit : qs = qs.take 1073741824 ++ qs.drop 1073741824 := (List.take_append_drop _ _).symm
  have htl : (qs.take 1073741824).length = 1073741824 := by
    rw [List.length_take]; omega
  obtain ⟨q, rest, hdrop⟩ : ∃ q rest, qs.drop 1073741824 = q :: rest := by
    cases hd : qs.drop 1073741824 with
    | nil =>
      have := congrArg List.length hd
      simp only [List.length_drop, List.length_nil] at this
      omega
    | cons q rest => exact ⟨q, rest, rfl⟩
  obtain ⟨s0, hrun0, hwf0, hr0, -, hc0, hcap0⟩ := full_state t_r (qs.take 1073741824) htl
  have hov := (float_overflow s0 q.1 q.2 hwf0 (by omega) (by omega)).2.2.2.2.2
  rw [hsplit, hdrop] at h
  have happ : float_inputs (qs.take 1073741824 ++ q :: rest) =
      float_inputs (qs.take 1073741824) ++ (t_input.float q.1 q.2 true :: float_inputs rest) := by
    simp only [float_inputs, List.map_append, List.map_cons]
  rw [happ, ← List.cons_append, run_append, hrun0] at h
  simp only [Option.some_bind, run, step, sliderloop_float, hr0, if_true, hov] at h
  exact absurd h (by simp)


/-- C12: from a fresh object and `record`, the `k`-th successful append (`k = ps.length + 1`,
every allocation succeeding) exists whenever `k <= 2^30`, and whenever it is handled without
fault: the capacity afterwards is the least member of `{16, 32, 64, ...}` that is `>= k`; the
capacity changes at this append exactly when count equalled capacity before it, from 0 to 16 and
otherwise to twice its value; and the buffer afterwards is the buffer before, unchanged and in
order, followed by the new event. -/
theorem doubling_law (t_r : ℚ) (ps : List (ℚ × ℚ)) (p : ℚ × ℚ) :
    (ps.length < 1073741824 →
      ∃ s', run sliderloop_new (.record t_r :: float_inputs (ps ++ [p])) = some s') ∧
    ∀ s', run sliderloop_new (.record t_r :: float_inputs (ps ++ [p])) = some s' →
      ∃ s, run sliderloop_new (.record t_r :: float_inputs ps) = some s ∧
        step s (.float p.1 p.2 true) = some s' ∧
        s.event_count = ps.length ∧ s'.event_count = ps.length + 1 ∧
        IsLeast (doubling_caps ∩ {c | (ps.length : Int) + 1 ≤ c}) s'.event_capacity ∧
        (s'.event_capacity ≠ s.event_capacity ↔ s.event_count = s.event_capacity) ∧
        (s.event_count = s.event_capacity →
          s'.event_capacity = if s.event_capacity = 0 then 16 else 2 * s.event_capacity) ∧
        buffer s = ps.map (fun q => ⟨q.2 - t_r, q.1⟩) ∧
        buffer s' = buffer s ++ [⟨p.2 - t_r, p.1⟩] := by
  have hrunapp : ∀ s : t_sliderloop,
      run sliderloop_new (.record t_r :: float_inputs ps) = some s →
      run sliderloop_new (.record t_r :: float_inputs (ps ++ [p])) =
        step s (.float p.1 p.2 true) := by
    intro s hs
    rw [float_inputs_append, ← List.cons_append, run_append, hs]
    simp only [Option.some_bind, run]
    cases step s (.float p.1 p.2 true) <;> rfl
  constructor
  · intro hlt
    obtain ⟨s, hrun, hwf, hr, -, hc, -⟩ := record_floats_state t_r ps (by omega)
    obtain ⟨s', hstep, -⟩ := float_step s p.1 p.2 hwf hr (by omega)
    exact ⟨s', by rw [hrunapp s hrun, hstep]⟩
  · intro s' hs'
    have hbound := run_floats_bound t_r (ps ++ [p]) s' hs'
    simp only [List.length_append, List.length_singleton] at hbound
    obtain ⟨s, hrun, hwf, hr, hrs, hc, hb, hcap0, hcapj⟩ := record_floats_state t_r ps (by omega)
    obtain ⟨s1, hstep, hwf1, -, -, hc1, hb1, hcap1⟩ := float_step s p.1 p.2 hwf hr (by omega)
    have hs1 : s1 = s' := by
      rw [hrunapp s hrun, hstep] at hs'
      exact Option.some.inj hs'
    subst hs1
    obtain ⟨-, hle1, -, -⟩ := hwf1
    have hzero_or : s.event_capacity = 0 ∨ 16 ≤ s.event_capacity := by
      by_cases hnil : ps = []
      · exact Or.inl (hcap0 hnil)
      · obtain ⟨j, hj, -⟩ := hcapj hnil
        have hpos : (1 : Int) ≤ 2 ^ j := one_le_pow₀ (by norm_num)
        exact Or.inr (by omega)
    have hleast : IsLeast (doubling_caps ∩ {c | (ps.length : Int) + 1 ≤ c}) s1.event_capacity := by
      by_cases hnil : ps = []
      · have h0 := hcap0 hnil
        subst hnil
        simp only [List.length_nil, Nat.cast_zero] at hc
        have h16 : s1.event_capacity = 16 := by rw [hcap1, hc, h0]; simp
        exact least_doubling _ _ 0 (by rw [h16]; norm_num) (by rw [h16]; simp) (Or.inl h16)
      · obtain ⟨j, hj, hjs⟩ := hcapj hnil
        have hpos : (1 : Int) ≤ 2 ^ j := one_le_pow₀ (by norm_num)
        by_cases hfull : s.event_count = s.event_capacity
        · refine least_doubling _ _ (j + 1) ?_ (by omega) (Or.inr ?_)
          · rw [hcap1, if_pos hfull, if_neg (by omega), hj, pow_succ]; ring
          · rw [hcap1, if_pos hfull, if_neg (by omega)]; omega
        · refine least_doubling _ _ j ?_ (by omega) ?_
          · rw [hcap1, if_neg hfull, hj]
          · rw [hcap1, if_neg hfull]
            rcases hjs with h16 | h2
            · exact Or.inl h16
            · exact Or.inr (by omega)
    refine ⟨s, hrun, hstep, hc, by rw [hc1, hc], hleast, ?_, ?_, hb, by rw [hb1, hrs]⟩
    · rw [hcap1]
      constructor
      · intro hne
        by_contra hnf
        rw [if_neg hnf] at hne
        exact hne rfl
      · intro hfull
        rw [if_pos hfull]
        split_ifs <;> omega
    · intro hfull
      rw [hcap1, if_pos hfull]
      rcases hzero_or with h0 | h16
      · rw [h0]; simp
      · rw [if_neg (by omega), if_neg (by omega)]; ring


theorem doubling_law_witness :
    ∃ s', run sliderloop_new
        (.record 0 :: float_inputs (List.replicate 16 ((1 : ℚ), (2 : ℚ)) ++ [(3, 4)])) = some s' ∧
      s'.event_count = 17 ∧ s'.event_capacity = 32 := by
  obtain ⟨s', hs'⟩ := (doubling_law 0 (List.replicate 16 (1, 2)) (3, 4)).1 (by simp)
  obtain ⟨s, -, -, -, hc, hleast, -⟩ := (doubling_law 0 (List.replicate 16 (1, 2)) (3, 4)).2 s' hs'
  refine ⟨s', hs', by simpa using hc, ?_⟩
  obtain ⟨⟨⟨j, hj⟩, hk⟩, hlow⟩ := hleast
  simp only [List.length_replicate, Set.mem_setOf_eq, Nat.cast_ofNat] at hk
  have h32 : s'.event_capacity ≤ 32 :=
    hlow ⟨⟨1, by norm_num⟩, by simp only [List.length_replicate, Set.mem_setOf_eq]; norm_num⟩
  have hj1 : j ≠ 0 := by
    intro h0
    rw [h0] at hj
    omega
  have hpow : (2 : Int) ≤ 2 ^ j := by
    calc (2 : Int) = 2 ^ 1 := by norm_num
      _ ≤ 2 ^ j := pow_le_pow_right₀ (by norm_num) (by omega)
  omega

theorem many_floats_length : many_floats.length = 1073741824 := List.length_replicate _ _

/-- C11, evaluated on the code: `record` and `2^30` float inputs (allocations succeeding) leave
count and capacity at `2^30`; on the next float `event_capacity * 2` wraps to `-2^31`, the code
takes 16 as the new capacity and goes on to the store with `event_capacity = 16` below
`event_count = 2^30`. -/
theorem capacity_overflow :
    ∃ x, run sliderloop_new (.record 0 :: float_inputs many_floats) = some x ∧
      x.event_count = 1073741824 ∧ x.event_capacity = 1073741824 ∧
      wrap32 (x.event_capacity * 2) = -2147483648 ∧
      add_event x 1 0 true =
        add_event_store { x with events := x.events.take 16, event_capacity := 16 } 1 0 ∧
      ({ x with events := x.events.take 16, event_capacity := 16 } : t_sliderloop).event_capacity <
        ({ x with events := x.events.take 16, event_capacity := 16 } : t_sliderloop).event_count := by
  obtain ⟨x, hrun, hwf, hr, -, hc, hcap⟩ := full_state 0 many_floats many_floats_length
  obtain ⟨-, -, -, hadd, -, -⟩ := float_overflow x 1 0 hwf (by omega) (by omega)
  refine ⟨x, hrun, hc, hcap, ?_, hadd, ?_⟩
  · rw [hcap]; decide
  · simp only [hc]; decide

/-- C15, evaluated on the code: the well-formed recording object reached by `record` and `2^30`
float inputs does not append on the next float input although `realloc` succeeds: the block is
cut down to its first 16 cells and the input ends in a store outside the block. -/
theorem float_input_overflow :
    ∃ x, Reachable x ∧ wf x ∧ x.recording = true ∧ x.event_count = x.event_capacity ∧
      realloc true x.events 16 = some (x.events.take 16) ∧
      sliderloop_float x 1 0 true = none := by
  obtain ⟨x, hrun, hwf, hr, -, hc, hcap⟩ := full_state 0 many_floats many_floats_length
  obtain ⟨-, hre, -, -, -, hnone⟩ := float_overflow x 1 0 hwf (by omega) (by omega)
  exact ⟨x, ⟨_, hrun⟩, hwf, hr, by omega, hre, by simp only [sliderloop_float, hr, if_true, hnone]⟩

/-- C20, evaluated on the code: from the reachable object holding `2^30` events, the float input
writes `events[event_count]` with `event_count = 2^30` into a block that `realloc` has just cut
down to 16 cells: the out-of-range branch of the store is taken. -/
theorem store_outside_block :
    ∃ x, Reachable x ∧ x.event_count = 1073741824 ∧
      realloc true x.events 16 = some (x.events.take 16) ∧
      (x.events.take 16).length = 16 ∧
      store_event (x.events.take 16) x.event_count ⟨0 - x.record_start, 1⟩ = none ∧
      step x (.float 1 0 true) = none := by
  obtain ⟨x, hrun, hwf, hr, -, hc, hcap⟩ := full_state 0 many_floats many_floats_length
  obtain ⟨-, hre, hl, -, hst, hnone⟩ := float_overflow x 1 0 hwf (by omega) (by omega)
  exact ⟨x, ⟨_, hrun⟩, hc, hre, hl, hst,
    by simp only [step, sliderloop_float, hr, if_true, hnone]⟩

/-! ### Time order of the stored events -/

theorem buffer_of_same (x x' : t_sliderloop) (h1 : x'.events = x.events)
    (h2 : x'.event_count = x.event_count) : buffer x' = buffer x := by
  simp only [buffer, h1, h2]

theorem ordered_upto_mono (x : t_sliderloop) (lo lo' : ℚ) (h : ordered_upto x lo)
    (hle : lo ≤ lo') : ordered_upto x lo' :=
  ⟨h.1, fun hr e he => le_trans (h.2 hr e he) hle⟩

theorem ordered_upto_same (x x' : t_sliderloop) (lo lo' : ℚ) (h : ordered_upto x lo)
    (hle : lo ≤ lo') (h1 : x'.events = x.events) (h2 : x'.event_count = x.event_count)
    (h3 : x'.recording = true → x.recording = true ∧ x'.record_start = x.record_start) :
    ordered_upto x' lo' := by
  have hb := buffer_of_same x x' h1 h2
  refine ⟨by rw [hb]; exact h.1, ?_⟩
  intro hr e he
  obtain ⟨hrx, hrs⟩ := h3 hr
  rw [hb] at he
  rw [hrs]
  exact le_trans (h.2 hrx e he) hle

theorem run_ordered : ∀ (is : List t_input) (x s : t_sliderloop) (lo : ℚ),
    wf x → ordered_upto x lo → run x is = some s → tame_run x is →
    (lo :: clock_readings is).Pairwise (· ≤ ·) →
    (buffer s).Pairwise (fun a b => a.time ≤ b.time)
  | [], x, s, lo, _, hord, hrun, _, _ => by
    simp only [run, Option.some.injEq] at hrun
    subst hrun
    exact hord.1
  | i :: is, x, s, lo, hwf, hord, hrun, hno, hclock => by
    simp only [run] at hrun
    cases hs : step x i with
    | none => simp [hs] at hrun
    | some x1 =>
      simp only [hs] at hrun
      have hwf1 := step_wf x x1 i hwf hs
      obtain ⟨htame, hno''⟩ := hno
      have hno' := hno'' x1 hs
      cases i with
      | record now =>
        simp only [clock_readings, List.pairwise_cons] at hclock
        simp only [step, Option.some.injEq] at hs
        subst hs
        refine run_ordered is _ s now hwf1 ?_ hrun hno' (List.pairwise_cons.mpr hclock.2)
        refine ⟨by simp [buffer, start_recording], ?_⟩
        intro _ e he
        simp [buffer, start_recording] at he
      | stop =>
        simp only [clock_readings] at hclock
        simp only [step, Option.some.injEq] at hs
        subst hs
        refine run_ordered is _ s lo hwf1 ?_ hrun hno' hclock
        exact ordered_upto_same x (stop x) lo lo hord (le_refl _) rfl rfl
          (fun h => by simp [stop] at h)
      | play a b =>
        simp only [clock_readings, List.pairwise_cons] at hclock
        obtain ⟨hlo, ha, hrest⟩ := hclock
        have hlob : lo ≤ b := hlo b (by simp)
        obtain ⟨h1, h2, -, h4, h5, h6⟩ := start_playback_some x x1 a b hs
        refine run_ordered is x1 s b hwf1 ?_ hrun hno' (List.pairwise_cons.mpr hrest)
        refine ordered_upto_same x x1 lo b hord hlob h1 h2 ?_
        intro hr
        by_cases h0 : x.event_count = 0
        · rw [h5 h0] at hr ⊢
          exact ⟨hr, rfl⟩
        · rw [(h6 h0).1] at hr
          exact absurd hr (by simp)
      | save filename ok =>
        simp only [clock_readings] at hclock
        simp only [step] at hs
        cases hsv : save_to_file x filename ok with
        | none => simp [hsv] at hs
        | some r =>
          simp only [hsv, Option.map_some', Option.some.injEq] at hs
          subst hs
          exact run_ordered is x s lo hwf hord hrun hno' hclock
      | load filename file alloc_ok =>
        simp only [clock_readings] at hclock
        refine run_ordered is x1 s lo hwf1 ?_ hrun hno' hclock
        simp only [step] at hs
        cases hl : load_from_file x filename file alloc_ok with
        | none => simp [hl] at hs
        | some r =>
          simp only [hl, Option.map_some', Option.some.injEq] at hs
          subst hs
          cases file with
          | none =>
            simp only [load_from_file, Option.some.injEq] at hl
            subst hl
            exact hord
          | some f =>
            obtain ⟨hrec, hsorted⟩ := htame
            have hrec' := (load_from_file_some x filename (some f) alloc_ok r hwf hl).2.1
            refine ⟨hsorted r hl, ?_⟩
            intro hr
            rw [hrec', hrec] at hr
            exact absurd hr (by simp)
      | float f now ok =>
        simp only [clock_readings, List.pairwise_cons] at hclock
        obtain ⟨hlo, hrest⟩ := hclock
        have hlon : lo ≤ now := hlo now (by simp)
        refine run_ordered is x1 s now hwf1 ?_ hrun hno' (List.pairwise_cons.mpr hrest)
        simp only [step, sliderloop_float] at hs
        split_ifs at hs with hr
        · rcases add_event_some x x1 f now ok hwf hs with rfl | ⟨-, -, hb, -, -, hr1, hrs1, -⟩
          · exact ordered_upto_mono _ lo now hord hlon
          · refine ⟨?_, ?_⟩
            · rw [hb, List.pairwise_append]
              refine ⟨hord.1, List.pairwise_singleton _ _, ?_⟩
              intro e he e' he'
              simp only [List.mem_singleton] at he'
              subst he'
              have := hord.2 hr e he
              simp only
              linarith
            · intro _ e he
              rw [hb, List.mem_append] at he
              rw [hrs1]
              rcases he with he | he
              · exact le_trans (hord.2 hr e he) hlon
              · simp only [List.mem_singleton] at he
                subst he
                simp
        · simp only [Option.some.injEq] at hs
          subst hs
          exact ordered_upto_mono _ lo now hord hlon
      | tick a b =>
        simp only [clock_readings, List.pairwise_cons] at hclock
        obtain ⟨hlo, ha, hrest⟩ := hclock
        have hlob : lo ≤ b := hlo b (by simp)
        obtain ⟨h1, h2, -, h4, h5, -⟩ := clock_fire_some x x1 a b hs
        refine run_ordered is x1 s b hwf1 ?_ hrun hno' (List.pairwise_cons.mpr hrest)
        exact ordered_upto_same x x1 lo b hord hlob h1 h2 (fun hr => ⟨h4 ▸ hr, h5⟩)


/-- C13, as the code has it: in every state reached from the constructor by `record`, `stop`,
`play`, `load`, `save`, float inputs and ticks under clock readings that never go backward,
provided every `load` that opens its file is handled while `recording` is false and stores pairs
that are in time order, the stored events are in non-decreasing time order: for
`i < j < event_count`, `events[i].time <= events[j].time`. -/
theorem time_ordered (is : List t_input) (s : t_sliderloop)
    (hrun : run sliderloop_new is = some s) (hno : tame_run sliderloop_new is)
    (hclock : (clock_readings is).Pairwise (· ≤ ·)) :
    ∀ (i j : Nat) (ei ej : t_event), i < j → (buffer s)[i]? = some ei →
      (buffer s)[j]? = some ej → ei.time ≤ ej.time := by
  have hpair : (buffer s).Pairwise (fun a b => a.time ≤ b.time) := by
    have hnew : ∀ lo, ordered_upto sliderloop_new lo := fun lo =>
      ⟨by simp [buffer, sliderloop_new], fun h => by simp [sliderloop_new] at h⟩
    cases hr : clock_readings is with
    | nil =>
      exact run_ordered is sliderloop_new s 0 wf_new (hnew 0) hrun hno (by rw [hr]; simp)
    | cons r rs =>
      refine run_ordered is sliderloop_new s r wf_new (hnew r) hrun hno ?_
      rw [hr] at hclock ⊢
      rw [List.pairwise_cons]
      refine ⟨?_, hclock⟩
      intro b hb
      rcases List.mem_cons.mp hb with rfl | hb
      · exact le_refl _
      · exact (List.pairwise_cons.mp hclock).1 b hb
  intro i j ei ej hij hi hj
  obtain ⟨hil, rfl⟩ := List.getElem?_eq_some.mp hi
  obtain ⟨hjl, rfl⟩ := List.getElem?_eq_some.mp hj
  exact (List.pairwise_iff_getElem.mp hpair) i j hil hjl hij

set_option maxRecDepth 8000 in
theorem time_ordered_witness :
    ∃ s, run sliderloop_new [.record 0, .float 1 5 true, .float 2 5 true, .stop,
        .load "a.txt" (some "sliderloop_data_v1.0\n1 7\n2 8\n".toList) (fun _ => true),
        .play 6 6, .tick 11 11] = some s ∧
      ∀ (i j : Nat) (ei ej : t_event), i < j → (buffer s)[i]? = some ei →
        (buffer s)[j]? = some ej → ei.time ≤ ej.time := by
  have h : ∃ s, run sliderloop_new [.record 0, .float 1 5 true, .float 2 5 true, .stop,
      .load "a.txt" (some "sliderloop_data_v1.0\n1 7\n2 8\n".toList) (fun _ => true),
      .play 6 6, .tick 11 11] = some s := by
    simp [run, step, start_recording, sliderloop_float, add_event, add_event_store, store_event,
      realloc, wrap32, start_playback, stop, schedule_next, load_event, sliderloop_new,
      clock_fire, playback_tick, load_from_file, fgets, c_str, strstr, load_loop, load_append,
      load_store, fscanf_event, scan_double, skip_space, scan_sign, scan_digits, c_isspace,
      c_isdigit, List.dropWhile, List.takeWhile]
  obtain ⟨s, hs⟩ := h
  refine ⟨s, hs, time_ordered _ s hs ?_ ?_⟩
  · simp [tame_run, tame_load, buffer, step, start_recording, sliderloop_float, add_event,
      add_event_store, store_event, realloc, wrap32, start_playback, stop, schedule_next,
      load_event, sliderloop_new, clock_fire, playback_tick, load_from_file, fgets, c_str,
      strstr, load_loop, load_append, load_store, fscanf_event, scan_double, skip_space,
      scan_sign, scan_digits, c_isspace, c_isdigit, List.dropWhile, List.takeWhile]
  · simp [clock_readings]
    norm_num

set_option maxRecDepth 8000 in
/-- C13 as stated fails with `load`: a file whose lines are out of time order is stored as it
is, and a file in time order loaded while recording is followed by later samples with earlier
relative times; in both runs the clock readings never go backward. -/
theorem load_breaks_time_order :
    (∃ s, run sliderloop_new
        [.load "a.txt" (some "sliderloop_data_v1.0\n2 1\n1 1\n".toList) (fun _ => true)] =
          some s ∧
      (clock_readings
        [.load "a.txt" (some "sliderloop_data_v1.0\n2 1\n1 1\n".toList)
          (fun _ => true)]).Pairwise (· ≤ ·) ∧
      (buffer s)[0]? = some ⟨2, 1⟩ ∧ (buffer s)[1]? = some ⟨1, 1⟩ ∧ ¬ ((2 : ℚ) ≤ 1)) ∧
    (∃ s, run sliderloop_new
        [.record 0, .load "a.txt" (some "sliderloop_data_v1.0\n100.000000 1.000000\n".toList)
          (fun _ => true), .float 2 5 true] = some s ∧
      (clock_readings
        [.record 0, .load "a.txt" (some "sliderloop_data_v1.0\n100.000000 1.000000\n".toList)
          (fun _ => true), .float 2 5 true]).Pairwise (· ≤ ·) ∧
      (buffer s)[0]? = some ⟨100, 1⟩ ∧ (buffer s)[1]? = some ⟨5, 2⟩ ∧ ¬ ((100 : ℚ) ≤ 5)) := by
  constructor
  · simp [run, step, load_from_file, fgets, c_str, strstr, load_loop, load_append, load_store,
      store_event, realloc, wrap32, fscanf_event, scan_double, skip_space, scan_sign,
      scan_digits, c_isspace, c_isdigit, List.dropWhile, sliderloop_new, buffer,
      List.takeWhile, clock_readings]
  · simp [run, step, load_from_file, fgets, c_str, strstr, load_loop, load_append, load_store,
      store_event, realloc, wrap32, fscanf_event, scan_double, skip_space, scan_sign,
      scan_digits, c_isspace, c_isdigit, List.dropWhile, sliderloop_new, buffer,
      List.takeWhile, clock_readings, start_recording, sliderloop_float, add_event,
      add_event_store]
    norm_num

/-! ### The playback cursor -/

theorem clock_fire_cursor (x x' : t_sliderloop) (a b : ℚ) (hwf : wf x) (hok : cursor_ok x)
    (h : clock_fire x a b = some x') : cursor_ok x' := by
  obtain ⟨h0, hle, hlen, hmax⟩ := hwf
  unfold clock_fire at h
  cases hc : x.x_clock with
  | none =>
    simp only [hc, Option.some.injEq] at h
    subst h
    exact hok
  | some d =>
    simp only [hc] at h
    intro hp'
    have hsome := playback_tick_some _ x' a b h
    have hp : x.playing = true := by
      have := hsome.2.2.2.2.2
      simp only at this
      rw [← this]; exact hp'
    obtain ⟨hi0, hilt⟩ := hok hp
    obtain ⟨e, -, he⟩ := buffer_load_event x x.play_index hi0 hilt (by omega)
    rw [playback_tick_eq { x with x_clock := none } a b e hp hi0 hilt (by simp only; omega) he] at h
    obtain ⟨-, hcnt, -, -, -, -, hidx, -⟩ := schedule_next_some _ x' b h
    by_cases hlast : x.play_index + 1 = x.event_count
    · simp only [hlast, if_true] at hcnt hidx
      rw [hcnt, hidx]
      omega
    · simp only [hlast, if_false] at hcnt hidx
      rw [hcnt, hidx]
      omega

/-- Every input other than a `record` or `load` arriving during playback keeps the cursor
inside the buffer. -/
theorem step_cursor (x x' : t_sliderloop) (i : t_input) (hwf : wf x) (hok : cursor_ok x)
    (hquiet : x.playing = true → resets_buffer i = false) (h : step x i = some x') :
    cursor_ok x' := by
  cases i with
  | record now =>
    simp only [step, Option.some.injEq] at h
    subst h
    intro hp
    have := hquiet hp
    simp [resets_buffer] at this
  | stop =>
    simp only [step, Option.some.injEq] at h
    subst h
    intro hp
    simp [stop] at hp
  | play a b =>
    obtain ⟨-, h2, -, -, h5, h6⟩ := start_playback_some x x' a b h
    by_cases h0 : x.event_count = 0
    · rw [h5 h0]; exact hok
    · intro _
      obtain ⟨-, -, hi, -⟩ := h6 h0
      obtain ⟨hc0, -⟩ := hwf
      rw [hi, h2]
      omega
  | save filename ok =>
    simp only [step] at h
    cases hs : save_to_file x filename ok with
    | none => simp [hs] at h
    | some r =>
      simp only [hs, Option.map_some', Option.some.injEq] at h
      subst h
      exact hok
  | load filename file alloc_ok =>
    simp only [step] at h
    cases hs : load_from_file x filename file alloc_ok with
    | none => simp [hs] at h
    | some r =>
      simp only [hs, Option.map_some', Option.some.injEq] at h
      subst h
      intro hp
      have hpx := (load_from_file_some x filename file alloc_ok r hwf hs).2.2.2.1
      have := hquiet (hpx ▸ hp)
      simp [resets_buffer] at this
  | float f now ok =>
    simp only [step, sliderloop_float] at h
    split_ifs at h with hr
    · rcases add_event_some x x' f now ok hwf h with rfl | ⟨-, hc, -, -, -, -, -, hp, hi, -⟩
      · exact hok
      · intro hp'
        obtain ⟨a1, a2⟩ := hok (hp ▸ hp')
        rw [hi, hc]
        omega
    · simp only [Option.some.injEq] at h
      subst h
      exact hok
  | tick a b => exact clock_fire_cursor x x' a b hwf hok h

theorem run_cursor : ∀ (is : List t_input) (x s : t_sliderloop),
    wf x → cursor_ok x → run x is = some s → quiet_run x is → cursor_ok s
  | [], x, s, _, hok, hrun, _ => by
    simp only [run, Option.some.injEq] at hrun
    subst hrun
    exact hok
  | i :: is, x, s, hwf, hok, hrun, hq => by
    simp only [run] at hrun
    cases hs : step x i with
    | none => simp [hs] at hrun
    | some x1 =>
      simp only [hs] at hrun
      obtain ⟨hq1, hq2⟩ := hq
      exact run_cursor is x1 s (step_wf x x1 i hwf hs) (step_cursor x x1 i hwf hok hq1 hs)
        hrun (hq2 x1 hs)

/-- C14, as the code has it: in every state reached from the constructor by a run in which no
`record` and no `load` arrives while `playing` is true, `playing` implies
`0 <= play_index < event_count`. -/
theorem cursor_range (is : List t_input) (s : t_sliderloop)
    (hrun : run sliderloop_new is = some s) (hq : quiet_run sliderloop_new is)
    (hp : s.playing = true) : 0 ≤ s.play_index ∧ s.play_index < s.event_count :=
  run_cursor is sliderloop_new s wf_new (fun h => by simp [sliderloop_new] at h) hrun hq hp


theorem cursor_range_witness :
    ∃ s, run sliderloop_new [.record 0, .float 1 5 true, .float 2 7 true, .play 10 10,
        .tick 15 15, .float 9 16 true, .tick 17 18] = some s ∧ s.playing = true ∧
      0 ≤ s.play_index ∧ s.play_index < s.event_count := by
  have h : ∃ s, run sliderloop_new [.record 0, .float 1 5 true, .float 2 7 true, .play 10 10,
      .tick 15 15, .float 9 16 true, .tick 17 18] = some s ∧ s.playing = true := by
    simp [run, step, start_recording, sliderloop_float, add_event, add_event_store, store_event,
      realloc, wrap32, start_playback, stop, schedule_next, load_event, sliderloop_new,
      clock_fire, playback_tick]
  obtain ⟨s, hs, hp⟩ := h
  refine ⟨s, hs, hp, cursor_range _ s hs ?_ hp⟩
  simp [quiet_run, resets_buffer, step, start_recording, sliderloop_float, add_event,
    add_event_store, store_event, realloc, wrap32, start_playback, stop, schedule_next,
    load_event, sliderloop_new, clock_fire, playback_tick]

/-- C14 as stated fails with `load`: after `record`, a float and `play`, loading a file that
holds the header and no data line leaves `playing` true with `play_index = 0` and
`event_count = 0`. -/
theorem load_while_playing_cursor :
    ∃ s, run sliderloop_new [.record 0, .float 1 5 true, .play 10 10,
        .load "a.txt" (some "sliderloop_data_v1.0\n".toList) (fun _ => true)] = some s ∧
      s.playing = true ∧ s.play_index = 0 ∧ s.event_count = 0 ∧
      ¬ (0 ≤ s.play_index ∧ s.play_index < s.event_count) := by
  simp [run, step, start_recording, sliderloop_float, add_event, add_event_store, store_event,
    realloc, wrap32, start_playback, stop, schedule_next, load_event, sliderloop_new,
    load_from_file, fgets, c_str, strstr, load_loop, fscanf_event, scan_double, skip_space,
    scan_sign, scan_digits, List.dropWhile, List.takeWhile]

/-! ### The period of the loop -/

/-- One firing of a timer that is not early, on an object playing `n` events: the next timer is
armed again by `schedule_next`, and if the cursor was on the last event the loop restarts with
`play_start` set to the clock reading, which is not before the old `play_start` plus the time
of the last event. -/
theorem tick_armed (ev : List t_event) (n : Int) (s : t_sliderloop) (a : ℚ) (t : ℚ × ℚ)
    (hn : n ≤ ev.length) (hmax : n ≤ 2147483647) (hs : armed_for ev n s a)
    (hlate : ∀ d, s.x_clock = some d → a + d ≤ t.1) :
    ∃ s' e, clock_fire s t.1 t.2 = some s' ∧ armed_for ev n s' t.2 ∧
      load_event ev s.play_index = some e ∧ s.play_start + e.time ≤ t.1 ∧
      (s.play_index + 1 = n → s'.play_index = 0 ∧ s'.play_start = t.1) ∧
      (s.play_index + 1 ≠ n → s'.play_index = s.play_index + 1 ∧
        s'.play_start = s.play_start) := by
  obtain ⟨hp, hev, hcnt, hi0, hilt, e, he, hclk⟩ := hs
  have hfire : clock_fire s t.1 t.2 = playback_tick { s with x_clock := none } t.1 t.2 := by
    simp [clock_fire, hclk]
  have hdue : s.play_start + e.time ≤ t.1 := by
    have h1 := hlate _ hclk
    have h2 : s.play_start + e.time - a ≤ max 0 (s.play_start + e.time - a) := le_max_right _ _
    linarith
  have htick := playback_tick_eq { s with x_clock := none } t.1 t.2 e hp hi0
    (by simp only; omega) (by simp only; omega) (by simp only; rw [hev]; exact he)
  dsimp only at htick
  by_cases hlast : s.play_index + 1 = n
  · have h0n : (0 : Int) < n := by omega
    have hil : (0 : Int).toNat < ev.length := by omega
    have he0 : load_event ev 0 = some ev[(0 : Int).toNat] := by
      simp [load_event, List.getElem?_eq_getElem hil]
    rw [if_pos (by omega)] at htick
    have hsched := schedule_next_eq
      { s with x_clock := none, x_out := s.x_out ++ [e.value], play_index := 0,
               play_start := t.1 }
      t.2 ev[(0 : Int).toNat] hp (by simp only; omega) (by simp only; rw [hev]; exact he0)
    refine ⟨_, e, hfire.trans (htick.trans hsched), ?_, he, hdue, fun _ => ⟨rfl, rfl⟩,
      fun h => absurd hlast h⟩
    exact ⟨hp, hev, hcnt, le_refl _, h0n, _, he0, rfl⟩
  · have hnext : s.play_index + 1 < n := by omega
    have hil : (s.play_index + 1).toNat < ev.length := by omega
    have he1 : load_event ev (s.play_index + 1) = some ev[(s.play_index + 1).toNat] := by
      have h01 : 0 ≤ s.play_index + 1 := by omega
      simp [load_event, h01, List.getElem?_eq_getElem hil]
    rw [if_neg (by omega)] at htick
    have hsched := schedule_next_eq
      { s with x_clock := none, x_out := s.x_out ++ [e.value],
               play_index := s.play_index + 1 }
      t.2 ev[(s.play_index + 1).toNat] hp (by simp only; omega)
      (by simp only; rw [hev]; exact he1)
    refine ⟨_, e, hfire.trans (htick.trans hsched), ?_, he, hdue, fun h => absurd h hlast,
      fun _ => ⟨rfl, rfl⟩⟩
    exact ⟨hp, hev, hcnt, by simp only; omega, hnext, _, he1, rfl⟩

theorem run_timely (ev : List t_event) (n : Int) (t : ℚ × ℚ) (hn : n ≤ ev.length)
    (hmax : n ≤ 2147483647) :
    ∀ (pre : List (ℚ × ℚ)) (s : t_sliderloop) (a : ℚ), armed_for ev n s a →
      timely s a (pre ++ [t]) →
      ∃ s1 s' e, run s (pre.map fun p => t_input.tick p.1 p.2) = some s1 ∧
        step s1 (.tick t.1 t.2) = some s' ∧ s1.playing = true ∧ s1.event_count = n ∧
        0 ≤ s1.play_index ∧ s1.play_index < n ∧
        load_event ev s1.play_index = some e ∧ s1.play_start + e.time ≤ t.1 ∧
        (s1.play_index + 1 = n → s'.play_index = 0 ∧ s'.play_start = t.1) ∧
        (s1.play_index + 1 ≠ n → s'.play_index = s1.play_index + 1 ∧
          s'.play_start = s1.play_start)
  | [], s, a, hs, ht => by
    obtain ⟨hlate, -, -⟩ := ht
    obtain ⟨s', e, hfire, -, he, hdue, h1, h2⟩ := tick_armed ev n s a t hn hmax hs hlate
    exact ⟨s, s', e, rfl, hfire, hs.1, hs.2.2.1, hs.2.2.2.1, hs.2.2.2.2.1, he, hdue, h1, h2⟩
  | u :: pre, s, a, hs, ht => by
    obtain ⟨hlate, -, hrest⟩ := ht
    obtain ⟨su, -, hfire, hsu, -⟩ := tick_armed ev n s a u hn hmax hs hlate
    obtain ⟨s1, s', e, hrun, hrest'⟩ := run_timely ev n t hn hmax pre su u.2 hsu (hrest su hfire)
    refine ⟨s1, s', e, ?_, hrest'⟩
    simp only [List.map_cons, run, step, hfire]
    exact hrun

/-- C18: `play` on a well-formed object with `n > 0` events, then firings of the clock with
nothing in between, under a clock that does not go backward and a timer that does not fire
before the clock reading at which it was armed plus its delay: every firing is handled, it
happens no earlier than `play_start` plus the time of the event under the cursor, and at each
loop restart (cursor on event `n - 1`) the new `play_start` is the clock reading of the restart,
which is at least the previous `play_start` plus `events[n-1].time`. -/
theorem loop_period (x : t_sliderloop) (t_start t_sched : ℚ) (pre : List (ℚ × ℚ)) (t : ℚ × ℚ)
    (hwf : wf x) (hpos : 0 < x.event_count)
    (htimely : ∀ s0, start_playback x t_start t_sched = some s0 →
      timely s0 t_sched (pre ++ [t])) :
    ∃ s s' elast, run x (.play t_start t_sched :: pre.map fun p => t_input.tick p.1 p.2) =
        some s ∧
      step s (.tick t.1 t.2) = some s' ∧
      (buffer x)[(x.event_count - 1).toNat]? = some elast ∧
      (s.play_index + 1 = x.event_count →
        s'.play_index = 0 ∧ s'.play_start = t.1 ∧ s.play_start + elast.time ≤ s'.play_start) := by
  obtain ⟨h0, hle, hlen, hmax⟩ := hwf
  have hblock : x.event_count ≤ x.events.length := by omega
  obtain ⟨e0, hb0, hplay⟩ := start_playback_eq x t_start t_sched hpos hblock
  obtain ⟨elast, hbl, hel⟩ := buffer_load_event x (x.event_count - 1) (by omega) (by omega) hblock
  have he0 : load_event x.events 0 = some e0 := by
    rw [buffer_getElem? x 0 (by omega)] at hb0
    simp [load_event, hb0]
  have harmed : armed_for x.events x.event_count
      { x_out := x.x_out, x_clock := some (max 0 (t_start + e0.time - t_sched)),
        recording := false, record_start := x.record_start, events := x.events,
        event_count := x.event_count, event_capacity := x.event_capacity,
        playing := true, play_start := t_start, play_index := 0 } t_sched :=
    ⟨rfl, rfl, rfl, le_refl _, hpos, e0, he0, rfl⟩
  obtain ⟨s, s', e, hrun, hstep, -, -, -, -, he, hdue, hrestart, -⟩ :=
    run_timely x.events x.event_count t hblock (by omega) pre _ t_sched harmed
      (htimely _ hplay)
  refine ⟨s, s', elast, ?_, hstep, hbl, ?_⟩
  · simp only [run, step, hplay]
    exact hrun
  · intro hlast
    obtain ⟨hi, hps⟩ := hrestart hlast
    refine ⟨hi, hps, ?_⟩
    have hidx : s.play_index = x.event_count - 1 := by omega
    rw [hidx, hel] at he
    cases he
    rw [hps]
    exact hdue


theorem loop_period_witness :
    ∃ s s' elast, run two_events
        (.play 50 50 :: [((50 : ℚ), (50 : ℚ))].map fun p => t_input.tick p.1 p.2) = some s ∧
      step s (.tick 151 152) = some s' ∧
      (buffer two_events)[(two_events.event_count - 1).toNat]? = some elast ∧
      (s.play_index + 1 = two_events.event_count →
        s'.play_index = 0 ∧ s'.play_start = 151 ∧ s.play_start + elast.time ≤ s'.play_start) := by
  refine loop_period two_events 50 50 [(50, 50)] (151, 152) (by decide) (by decide) ?_
  intro s0 h
  simp [start_playback, two_events, stop, schedule_next, load_event, sliderloop_new] at h
  subst h
  simp [timely, clock_fire, playback_tick, schedule_next, load_event, wrap32]
  norm_num

end Sliderloop
